import Mathlib

/-!
Verification development for the Cbeam utility library.

This file gives a shallow embedding, in Lean 4, of the parts of Cbeam that the
specification's claims are about:

* `std::map`-style sorted association lists (`Cbeam.alookup`, `Cbeam.ainsertR`,
  `Cbeam.aerase`, `Cbeam.ainsertSkip`) — the transient in-memory representation
  used by `stable_interprocess_map`;
* the length-prefixed binary serialization of primitives, strings and maps
  (`cbeam::serialization::traits`, `map_serializer`);
* the fixed-capacity shared segment together with the staged
  serialize-and-commit of `stable_interprocess_container::serialize`;
* the reference-count (RC) bookkeeping of `stable_reference_buffer`
  (construction, copy, assignment, reset, append with copy-on-write, the
  `delay_deallocation` scope);
* the singleton registry (`cbeam::lifecycle::singleton` / `singleton_control`);
* a discrete-event model of `message_manager::send_message` blocking.

Machine integers are modelled as `Nat` (addresses, sizes — `std::size_t`,
`uint8_t*`) and `Int` (the `int` reference counts); byte sequences as
`List Nat`.  The null pointer is the address `0`.
-/

namespace Cbeam

/-! ## Sorted association lists: the model of `std::map<Nat-like, V>`

`std::map` iterates in strictly increasing key order; we model a map by its
iteration sequence, a key-sorted duplicate-free association list.  The
operations below mirror the `std::map` operations the Cbeam code uses:
`ainsertR` is `m[key] = value` (replace-or-add), `aerase` is `m.erase(key)`,
`ainsertSkip` is `m.insert({key, value})` (which does *not* overwrite an
existing key), `alookup` is `m.find` / `m.at`. -/

/-- Association list with `Nat` keys, kept in strictly increasing key order. -/
abbrev AList (V : Type) := List (Nat × V)

/-- `std::map::find` / presence test: first value stored under key `k`. -/
def alookup {V : Type} : AList V → Nat → Option V
  | [], _ => none
  | (k', v') :: t, k => if k = k' then some v' else alookup t k

/-- `m[k] = v`: replace the value under `k`, or insert `(k, v)` at its sorted
position. -/
def ainsertR {V : Type} : AList V → Nat → V → AList V
  | [], k, v => [(k, v)]
  | (k', v') :: t, k, v =>
    if k < k' then (k, v) :: (k', v') :: t
    else if k = k' then (k, v) :: t
    else (k', v') :: ainsertR t k v

/-- `m.erase(k)`: remove every pair stored under `k`. -/
def aerase {V : Type} : AList V → Nat → AList V
  | [], _ => []
  | (k', v') :: t, k => if k = k' then aerase t k else (k', v') :: aerase t k

/-- `m.insert({k, v})`: insert at the sorted position, but keep the existing
value if the key is already present (C++ `std::map::insert` semantics). -/
def ainsertSkip {V : Type} : AList V → Nat → V → AList V
  | [], k, v => [(k, v)]
  | (k', v') :: t, k, v =>
    if k < k' then (k, v) :: (k', v') :: t
    else if k = k' then (k', v') :: t
    else (k', v') :: ainsertSkip t k v

/-- `m.count(k)` for a `std::map`: `1` when present, `0` otherwise. -/
def acount {V : Type} (m : AList V) (k : Nat) : Nat :=
  match alookup m k with
  | some _ => 1
  | none => 0

theorem alookup_ainsertR {V : Type} (m : AList V) (k : Nat) (v : V) (j : Nat) :
    alookup (ainsertR m k v) j = if j = k then some v else alookup m j := by
  induction m with
  | nil => by_cases h : j = k <;> simp [ainsertR, alookup, h]
  | cons p t ih =>
    obtain ⟨k', v'⟩ := p
    by_cases hlt : k < k'
    · by_cases h : j = k <;> by_cases h' : j = k' <;>
        simp [ainsertR, alookup, hlt, h, h']
    · by_cases heq : k = k'
      · subst heq
        by_cases h : j = k <;> simp [ainsertR, alookup, hlt, h]
      · by_cases h' : j = k'
        · have hjk : ¬ j = k := fun h => heq (h ▸ h' : k = k')
          have hk'k : ¬ k' = k := fun h => heq h.symm
          simp [ainsertR, alookup, hlt, heq, h', hjk, hk'k]
        · simp [ainsertR, alookup, hlt, heq, h', ih]

theorem alookup_aerase {V : Type} (m : AList V) (k : Nat) (j : Nat) :
    alookup (aerase m k) j = if j = k then none else alookup m j := by
  induction m with
  | nil => simp [aerase, alookup]
  | cons p t ih =>
    obtain ⟨k', v'⟩ := p
    by_cases he : k = k'
    · subst he
      by_cases h : j = k
      · subst h; simp [aerase, ih]
      · simp [aerase, alookup, h, ih]
    · by_cases h' : j = k'
      · have hjk : ¬ j = k := fun hh => he ((h' ▸ hh : k' = k)).symm
        have hk'k : ¬ k' = k := fun hh => he hh.symm
        simp [aerase, alookup, he, h', hjk, hk'k, fun hh : k = k' => he hh]
      · simp [aerase, alookup, he, h', ih]

theorem aerase_of_alookup_none {V : Type} (m : AList V) (k : Nat)
    (h : alookup m k = none) : aerase m k = m := by
  induction m with
  | nil => rfl
  | cons p t ih =>
    obtain ⟨k', v'⟩ := p
    by_cases he : k = k'
    · simp [alookup, he] at h
    · simp [alookup, he] at h
      simp [aerase, he, ih h]

theorem ainsertSkip_append {V : Type} (m : AList V) (k : Nat) (v : V)
    (h : ∀ p ∈ m, p.1 < k) : ainsertSkip m k v = m ++ [(k, v)] := by
  induction m with
  | nil => rfl
  | cons p t ih =>
    obtain ⟨k', v'⟩ := p
    have hk' : k' < k := h (k', v') (by simp)
    have : ¬ k < k' := by omega
    have hne : ¬ k = k' := by omega
    simp [ainsertSkip, this, hne]
    exact ih (fun q hq => h q (by simp [hq]))

/-! ## Serialization contract (`cbeam::serialization`)

`traits<T>::serialize` for a standard-layout trivial `T` appends the raw
native bytes of the value; `deserialize` reads them back and advances the
cursor.  We model the byte stream as a `List Nat` (one entry per byte) and a
decoder as a function consuming a prefix of the stream and returning the
remaining suffix — the advanced cursor.  Multi-byte integers are stored
little-endian, matching the x86-64 targets the library runs on.

* `encNat64` / `decNat64`: `std::size_t` (8 bytes) — the length prefixes of
  `traits<std::string>` and `map_serializer`, and `uint8_t*` map keys;
* `encInt32` / `decInt32`: `int` (4 bytes, two's complement) — the mapped
  values of the reference-count map;
* `encString` / `decString`: `traits<std::string>`: `size_t` length, then one
  byte per character;
* `encMap` / `decMap`: `map_serializer`: `size_t` element count, then each
  pair as key-encoding followed by value-encoding, inserted on decode with
  `std::map::insert` (which skips keys already present). -/

/-- Little-endian fixed-width encoding: `w` bytes of `n`. -/
def encBytesLE (w n : Nat) : List Nat :=
  (List.range w).map (fun i => n / 256 ^ i % 256)

/-- Read `w` little-endian bytes from the front of `l`; return the value and
the remaining stream, or `none` if fewer than `w` bytes are left. -/
def decBytesLE (w : Nat) (l : List Nat) : Option (Nat × List Nat) :=
  if l.length < w then none
  else some ((List.range w).foldr (fun i acc => acc + l.getD i 0 * 256 ^ i) 0, l.drop w)

theorem length_encBytesLE (w n : Nat) : (encBytesLE w n).length = w := by
  simp [encBytesLE]

theorem getD_encBytesLE_append (w n : Nat) (rest : List Nat) (i : Nat) (hi : i < w) :
    (encBytesLE w n ++ rest).getD i 0 = n / 256 ^ i % 256 := by
  rw [List.getD_append _ _ _ _ (by simp [length_encBytesLE, hi])]
  simp [encBytesLE, List.getD, List.getElem?_map, List.getElem?_range hi]

theorem foldr_add_shift (g : Nat → Nat) (c : Nat) (l : List Nat) :
    l.foldr (fun i acc => acc + g i) c = l.foldr (fun i acc => acc + g i) 0 + c := by
  induction l with
  | nil => simp
  | cons a t ih => simp only [List.foldr_cons, ih]; ring

theorem decBytesLE_encBytesLE (w n : Nat) (rest : List Nat) (h : n < 256 ^ w) :
    decBytesLE w (encBytesLE w n ++ rest) = some (n, rest) := by
  have hlen : (encBytesLE w n ++ rest).length = w + rest.length := by
    simp [length_encBytesLE]
  have hnotlt : ¬ (encBytesLE w n ++ rest).length < w := by omega
  have hdrop : (encBytesLE w n ++ rest).drop w = rest := by
    rw [List.drop_append_of_le_length (by simp [length_encBytesLE])]
    simp [List.drop_of_length_le (le_of_eq (length_encBytesLE w n))]
  rw [decBytesLE, if_neg hnotlt, hdrop]
  have hsum : ∀ w' : Nat, w' ≤ w →
      (List.range w').foldr (fun i acc => acc + (encBytesLE w n ++ rest).getD i 0 * 256 ^ i) 0
        = n % 256 ^ w' := by
    intro w' hw'
    induction w' with
    | zero => simp [Nat.mod_one]
    | succ m ih =>
      rw [List.range_succ, List.foldr_append]
      simp only [List.foldr_cons, List.foldr_nil]
      rw [foldr_add_shift, ih (by omega), getD_encBytesLE_append w n rest m (by omega)]
      rw [Nat.mod_pow_succ]
      ring
  rw [hsum w (le_refl w), Nat.mod_eq_of_lt h]

/-- `std::size_t` (64-bit). -/
def encNat64 (n : Nat) : List Nat := encBytesLE 8 n

/-- Decode a `std::size_t`. -/
def decNat64 (l : List Nat) : Option (Nat × List Nat) := decBytesLE 8 l

theorem decNat64_encNat64 (n : Nat) (rest : List Nat) (h : n < 2 ^ 64) :
    decNat64 (encNat64 n ++ rest) = some (n, rest) := by
  have : n < 256 ^ 8 := by norm_num at h ⊢; omega
  simpa [decNat64, encNat64] using decBytesLE_encBytesLE 8 n rest this

/-- C++ `int` (32-bit two's complement), the mapped type of the RC map. -/
def encInt32 (i : Int) : List Nat := encBytesLE 4 (i % 2 ^ 32).toNat

/-- Decode a C++ `int`. -/
def decInt32 (l : List Nat) : Option (Int × List Nat) :=
  match decBytesLE 4 l with
  | none => none
  | some (n, rest) => some (if n < 2 ^ 31 then (n : Int) else (n : Int) - 2 ^ 32, rest)

theorem decInt32_encInt32 (i : Int) (rest : List Nat)
    (h₁ : -(2 ^ 31) ≤ i) (h₂ : i < 2 ^ 31) :
    decInt32 (encInt32 i ++ rest) = some (i, rest) := by
  have hlt : (i % 2 ^ 32).toNat < 256 ^ 4 := by
    have h4 : (256 : Nat) ^ 4 = 4294967296 := by norm_num
    rw [h4]; omega
  rw [encInt32, decInt32, decBytesLE_encBytesLE 4 _ rest hlt]
  show some (if (i % 2 ^ 32).toNat < 2 ^ 31 then ((i % 2 ^ 32).toNat : Int)
             else ((i % 2 ^ 32).toNat : Int) - 2 ^ 32, rest) = some (i, rest)
  by_cases hneg : 0 ≤ i
  · have hlt31 : (i % 2 ^ 32).toNat < 2 ^ 31 := by
      have h31 : (2 : Nat) ^ 31 = 2147483648 := by norm_num
      rw [h31]; omega
    have ht : ((i % 2 ^ 32).toNat : Int) = i := by omega
    rw [if_pos hlt31, ht]
  · have hge : ¬ (i % 2 ^ 32).toNat < 2 ^ 31 := by
      have h31 : (2 : Nat) ^ 31 = 2147483648 := by norm_num
      rw [h31]; omega
    rw [if_neg hge]
    have ht : ((i % 2 ^ 32).toNat : Int) - 2 ^ 32 = i := by omega
    rw [ht]

/-- `traits<std::string>::serialize`: `size_t` length, then one byte per
character. -/
def encString (s : List Nat) : List Nat := encNat64 s.length ++ s

/-- `traits<std::string>::deserialize`: read the length, then that many bytes,
advancing the cursor past them. -/
def decString (l : List Nat) : Option (List Nat × List Nat) :=
  match decNat64 l with
  | none => none
  | some (len, rest) =>
    if rest.length < len then none else some (rest.take len, rest.drop len)

theorem decString_encString (s : List Nat) (rest : List Nat) (h : s.length < 2 ^ 64) :
    decString (encString s ++ rest) = some (s, rest) := by
  rw [encString, List.append_assoc, decString, decNat64_encNat64 s.length (s ++ rest) h]
  simp

/-- `map_serializer::serialize`: element count (`size_t`), then each pair as
key-encoding followed by value-encoding, iterating the map in key order. -/
def encMap {K V : Type} (encK : K → List Nat) (encV : V → List Nat)
    (m : List (K × V)) : List Nat :=
  encNat64 m.length ++ m.flatMap (fun p => encK p.1 ++ encV p.2)

/-- Decode `count` key/value pairs, inserting each with `std::map::insert`
(`ainsertSkip`). -/
def decMapPairs {V : Type} (decK : List Nat → Option (Nat × List Nat))
    (decV : List Nat → Option (V × List Nat)) :
    Nat → AList V → List Nat → Option (AList V × List Nat)
  | 0, acc, l => some (acc, l)
  | count + 1, acc, l =>
    match decK l with
    | none => none
    | some (k, l₁) =>
      match decV l₁ with
      | none => none
      | some (v, l₂) => decMapPairs decK decV count (ainsertSkip acc k v) l₂

/-- `map_serializer::deserialize`: clear the map, read the element count, then
insert `count` decoded pairs. -/
def decMap {V : Type} (decK : List Nat → Option (Nat × List Nat))
    (decV : List Nat → Option (V × List Nat)) (l : List Nat) :
    Option (AList V × List Nat) :=
  match decNat64 l with
  | none => none
  | some (count, rest) => decMapPairs decK decV count [] rest

/-- Strict key-sortedness: the canonical iteration order of a `std::map`. -/
def KeySorted {V : Type} (m : AList V) : Prop := m.Pairwise (fun p q => p.1 < q.1)

theorem decMapPairs_sorted {V : Type}
    (decK : List Nat → Option (Nat × List Nat))
    (decV : List Nat → Option (V × List Nat))
    (encK : Nat → List Nat) (encV : V → List Nat)
    (m : AList V)
    (hK : ∀ p ∈ m, ∀ rest, decK (encK p.1 ++ rest) = some (p.1, rest))
    (hV : ∀ p ∈ m, ∀ rest, decV (encV p.2 ++ rest) = some (p.2, rest))
    (acc : AList V) (rest : List Nat)
    (hacc : ∀ q ∈ acc, ∀ p ∈ m, q.1 < p.1) (hm : KeySorted m) :
    decMapPairs decK decV m.length acc
        (m.flatMap (fun p => encK p.1 ++ encV p.2) ++ rest) = some (acc ++ m, rest) := by
  induction m generalizing acc with
  | nil => simp [decMapPairs]
  | cons p t ih =>
    obtain ⟨k, v⟩ := p
    rw [List.length_cons, List.flatMap_cons]
    rw [List.append_assoc, List.append_assoc, decMapPairs,
      hK (k, v) (by simp) (encV v ++ (t.flatMap (fun p => encK p.1 ++ encV p.2) ++ rest))]
    dsimp only
    rw [hV (k, v) (by simp) (t.flatMap (fun p => encK p.1 ++ encV p.2) ++ rest)]
    dsimp only
    rw [ainsertSkip_append acc k v (fun q hq => hacc q hq (k, v) (by simp))]
    have hm' : KeySorted t := (List.pairwise_cons.mp hm).2
    have hacc' : ∀ q ∈ acc ++ [(k, v)], ∀ p ∈ t, q.1 < p.1 := by
      intro q hq p hp
      rcases List.mem_append.mp hq with hq | hq
      · exact hacc q hq p (by simp [hp])
      · have : q = (k, v) := by simpa using hq
        subst this
        exact (List.pairwise_cons.mp hm).1 p hp
    rw [ih (fun p hp => hK p (by simp [hp])) (fun p hp => hV p (by simp [hp]))
      (acc ++ [(k, v)]) hacc' hm']
    simp

theorem decMap_encMap {V : Type}
    (decK : List Nat → Option (Nat × List Nat))
    (decV : List Nat → Option (V × List Nat))
    (encK : Nat → List Nat) (encV : V → List Nat)
    (m : AList V)
    (hK : ∀ p ∈ m, ∀ rest, decK (encK p.1 ++ rest) = some (p.1, rest))
    (hV : ∀ p ∈ m, ∀ rest, decV (encV p.2 ++ rest) = some (p.2, rest))
    (rest : List Nat) (hm : KeySorted m) (hlen : m.length < 2 ^ 64) :
    decMap decK decV (encMap encK encV m ++ rest) = some (m, rest) := by
  rw [encMap, List.append_assoc, decMap,
    decNat64_encNat64 m.length (m.flatMap (fun p => encK p.1 ++ encV p.2) ++ rest) hlen]
  dsimp only
  rw [decMapPairs_sorted decK decV encK encV m hK hV [] rest (by simp) hm]
  simp

/-! ## The supported serialization algebra (claim C4)

A value of the algebra: a fixed-layout primitive (modelled by the 64-bit
`std::size_t`), a string, or an ordered map (of primitive keys and string
values).  Decoding is directed by the static type of the C++ instantiation,
modelled by a shape. -/

/-- A value of the supported serialization algebra. -/
inductive SVal where
  | prim (n : Nat)
  | str (s : List Nat)
  | vmap (m : List (Nat × List Nat))
  deriving DecidableEq

/-- The static type of a serialized value (implicit in C++ by the template
instantiation that decodes it). -/
inductive SShape where
  | prim
  | str
  | vmap
  deriving DecidableEq

/-- The shape of a value. -/
def shapeOf : SVal → SShape
  | .prim _ => .prim
  | .str _ => .str
  | .vmap _ => .vmap

/-- A value is representable: numbers fit the 64-bit machine word, string
characters are bytes, map iteration order is strictly key-sorted. -/
def WFSVal : SVal → Prop
  | .prim n => n < 2 ^ 64
  | .str s => s.length < 2 ^ 64 ∧ ∀ c ∈ s, c < 256
  | .vmap m => m.length < 2 ^ 64 ∧ KeySorted m ∧
      ∀ p ∈ m, p.1 < 2 ^ 64 ∧ p.2.length < 2 ^ 64 ∧ ∀ c ∈ p.2, c < 256

instance : DecidablePred WFSVal := by
  intro v
  cases v <;> simp only [WFSVal, KeySorted] <;> infer_instance

/-- Serialize one value of the algebra. -/
def encSVal : SVal → List Nat
  | .prim n => encNat64 n
  | .str s => encString s
  | .vmap m => encMap encNat64 encString m

/-- Deserialize one value of the given shape, advancing the cursor. -/
def decSVal : SShape → List Nat → Option (SVal × List Nat)
  | .prim, l => (decNat64 l).map (fun p => (.prim p.1, p.2))
  | .str, l => (decString l).map (fun p => (.str p.1, p.2))
  | .vmap, l => (decMap decNat64 decString l).map (fun p => (.vmap p.1, p.2))

/-- Serialize a heterogeneous sequence of values into one buffer, one after
another. -/
def encSValSeq (xs : List SVal) : List Nat := xs.flatMap encSVal

/-- Deserialize a heterogeneous sequence of values, one after another, in the
order given by the shapes. -/
def decSValSeq : List SShape → List Nat → Option (List SVal × List Nat)
  | [], l => some ([], l)
  | sh :: shs, l =>
    match decSVal sh l with
    | none => none
    | some (x, l₁) =>
      match decSValSeq shs l₁ with
      | none => none
      | some (xs, l₂) => some (x :: xs, l₂)

theorem decSVal_encSVal (x : SVal) (rest : List Nat) (h : WFSVal x) :
    decSVal (shapeOf x) (encSVal x ++ rest) = some (x, rest) := by
  cases x with
  | prim n => simp [shapeOf, encSVal, decSVal, decNat64_encNat64 n rest h]
  | str s => simp [shapeOf, encSVal, decSVal, decString_encString s rest h.1]
  | vmap m =>
    obtain ⟨hlen, hsorted, hmem⟩ := h
    simp [shapeOf, encSVal, decSVal,
      decMap_encMap decNat64 decString encNat64 encString m
        (fun p hp r => decNat64_encNat64 p.1 r (hmem p hp).1)
        (fun p hp r => decString_encString p.2 r (hmem p hp).2.1)
        rest hsorted hlen]

theorem decSValSeq_encSValSeq (xs : List SVal) (rest : List Nat)
    (h : ∀ x ∈ xs, WFSVal x) :
    decSValSeq (xs.map shapeOf) (encSValSeq xs ++ rest) = some (xs, rest) := by
  induction xs with
  | nil => simp [encSValSeq, decSValSeq]
  | cons x t ih =>
    rw [List.map_cons, encSValSeq, List.flatMap_cons, List.append_assoc, decSValSeq,
      decSVal_encSVal x _ (h x (by simp))]
    dsimp only
    rw [show t.flatMap encSVal = encSValSeq t from rfl, ih (fun y hy => h y (by simp [hy]))]

/-! ## Fixed-capacity shared segment and staged serialization
(`cbeam::container::stable_interprocess_container`)

The shared-memory segment is a fixed-capacity byte array.  `serialize` stages
the encoding of the container into a temporary `cbeam::container::buffer`,
compares its size against the segment capacity, and only on success copies the
staged bytes over the front of the segment (`std::memcpy(data(), buffer.get(),
buffer.size())`); on failure it throws a `runtime_error` whose message names
the required size, the capacity and the `CBEAM_SRB_MAP_BYTES` environment
variable, leaving the segment untouched. -/

/-- A named shared-memory segment: fixed capacity and its current bytes. -/
structure Segment where
  capacity : Nat
  content : List Nat
  deriving DecidableEq

/-- The error message built by `stable_interprocess_container::serialize` when
the staged encoding does not fit the segment. -/
def capacityErrorMessage (required capacity : Nat) : String :=
  "cbeam::stable_interprocess_container::serialize: size of serialized container ("
    ++ toString required
    ++ " bytes) exceeds shared memory size ("
    ++ toString capacity
    ++ " bytes). Set environment variable "
    ++ "CBEAM_SRB_MAP_BYTES"
    ++ " to configure a higher value."

/-- `stable_interprocess_container<T>::serialize(container)`: stage the
encoding, check it against the capacity, and only then commit it over the
front of the segment.  Returns the new segment and the error, if any. -/
def serializeToSegment {α : Type} (enc : α → List Nat) (x : α) (seg : Segment) :
    Segment × Option String :=
  let buf := enc x
  if buf.length > seg.capacity then
    (seg, some (capacityErrorMessage buf.length seg.capacity))
  else
    ({ seg with content := buf ++ seg.content.drop buf.length }, none)

/-- `needle` occurs contiguously inside `haystack`. -/
def strOccurs (needle haystack : String) : Prop :=
  needle.data <:+: haystack.data

set_option maxRecDepth 8000 in
theorem strOccurs_capacityErrorMessage (required capacity : Nat) :
    strOccurs (toString required) (capacityErrorMessage required capacity) ∧
    strOccurs (toString capacity) (capacityErrorMessage required capacity) ∧
    strOccurs "CBEAM_SRB_MAP_BYTES" (capacityErrorMessage required capacity) := by
  refine ⟨?_, ?_, ?_⟩
  · refine ⟨("cbeam::stable_interprocess_container::serialize: size of serialized container (").data,
      (" bytes) exceeds shared memory size (" ++ toString capacity
        ++ " bytes). Set environment variable " ++ "CBEAM_SRB_MAP_BYTES"
        ++ " to configure a higher value.").data, ?_⟩
    rw [capacityErrorMessage]
    simp [String.data_append, List.append_assoc]
  · refine ⟨("cbeam::stable_interprocess_container::serialize: size of serialized container ("
        ++ toString required ++ " bytes) exceeds shared memory size (").data,
      (" bytes). Set environment variable " ++ "CBEAM_SRB_MAP_BYTES"
        ++ " to configure a higher value.").data, ?_⟩
    rw [capacityErrorMessage]
    simp [String.data_append, List.append_assoc]
  · refine ⟨("cbeam::stable_interprocess_container::serialize: size of serialized container ("
        ++ toString required ++ " bytes) exceeds shared memory size ("
        ++ toString capacity ++ " bytes). Set environment variable ").data,
      (" to configure a higher value.").data, ?_⟩
    rw [capacityErrorMessage]
    simp [String.data_append, List.append_assoc]

/-! ## The `stable_interprocess_map` instantiation used by the RC map
(`std::map<uint8_t*, int>`: 8-byte pointer keys, 4-byte `int` values). -/

/-- Serialize an address→count map (`map_serializer<std::map<uint8_t*, int>>`). -/
def encRCMap (m : AList Int) : List Nat := encMap encNat64 encInt32 m

/-- Deserialize an address→count map. -/
def decRCMap (l : List Nat) : Option (AList Int × List Nat) := decMap decNat64 decInt32 l

/-- `stable_interprocess_container::deserialize` for the map instantiation:
decode the segment bytes (an undecodable segment stands for the
default-constructed container). -/
def segDeserializeRCMap (seg : Segment) : AList Int :=
  match decRCMap seg.content with
  | some (m, _) => m
  | none => []

/-- `stable_interprocess_map::erase(key)`: lock, deserialize the committed
image, erase the key from the transient map, re-serialize through the staged
commit. -/
def mapEraseOp (seg : Segment) (k : Nat) : Segment × Option String :=
  serializeToSegment encRCMap (aerase (segDeserializeRCMap seg) k) seg

/-- The value range of the C++ `int` counts stored in the RC map. -/
def Int32Range (i : Int) : Prop := -(2 ^ 31) ≤ i ∧ i < 2 ^ 31

theorem decRCMap_encRCMap (m : AList Int) (rest : List Nat) (hm : KeySorted m)
    (hlen : m.length < 2 ^ 64) (hkeys : ∀ p ∈ m, p.1 < 2 ^ 64)
    (hvals : ∀ p ∈ m, Int32Range p.2) :
    decRCMap (encRCMap m ++ rest) = some (m, rest) :=
  decMap_encMap decNat64 decInt32 encNat64 encInt32 m
    (fun p hp r => decNat64_encNat64 p.1 r (hkeys p hp))
    (fun p hp r => decInt32_encInt32 p.2 r (hvals p hp).1 (hvals p hp).2)
    rest hm hlen

/-! ## `stable_reference_buffer`: reference counts in the RC map

The RC map (`stable_interprocess_map<uint8_t*, int>`) is modelled at the level
of its transient in-memory value, an `AList Int` keyed by the raw address (the
null pointer is `0`; its entry, when present, is the sentinel holding the
initial use count raised by `delay_deallocation` scopes).  Claims C3/C4/C10
cover the segment round trip that every map operation performs.  The heap is
modelled as an association list from allocated base address to block bytes;
`malloc` hands out the fresh address `nextAddr`, never reusing addresses. -/

/-- The two fields of a `stable_reference_buffer` instance: base address of the
managed block (`0` = none) and the known length in bytes. -/
structure SRB where
  buffer : Nat
  size : Nat
  deriving DecidableEq

/-- Global state: the RC map, the process heap and the allocator cursor. -/
structure GState where
  rc : AList Int
  heap : AList (List Nat)
  nextAddr : Nat
  deriving DecidableEq

/-- `stable_interprocess_map::at_or_default`. -/
def rcAtOrDefault (m : AList Int) (k : Nat) (d : Int) : Int := (alookup m k).getD d

/-- `stable_interprocess_map::update`: `none` when the key is absent (the C++
method throws), otherwise the updated map and the post-update value. -/
def rcUpdate (m : AList Int) (k : Nat) (f : Int → Int) : Option (AList Int × Int) :=
  match alookup m k with
  | none => none
  | some c => some (ainsertR m k (f c), f c)

/-- `stable_interprocess_map::update_or_insert`. -/
def rcUpdateOrInsert (m : AList Int) (k : Nat) (f : Int → Int) (d : Int) : AList Int :=
  match alookup m k with
  | some c => ainsertR m k (f c)
  | none => ainsertR m k d

/-- `stable_reference_buffer::get_initial_use_count`: the sentinel entry under
the null address, defaulting to 1. -/
def getInitialUseCount (rc : AList Int) : Int := rcAtOrDefault rc 0 1

/-- `stable_reference_buffer::is_known(address)`: `false` for the null pointer,
otherwise whether the RC map has the address as a key. -/
def isKnownB (s : GState) (a : Nat) : Bool :=
  if a = 0 then false else acount s.rc a == 1

/-- Errors surfaced by `stable_reference_buffer` operations. -/
inductive SrbErr where
  | invalidInstance            -- copy of a default-constructed instance
  | addressUnmanaged           -- raw-address constructor on an unknown address
  | cannotAppendUnknownLength  -- append on a foreign raw wrapper
  | missingKey                 -- an RC `update` found no entry
  deriving DecidableEq

/-- `stable_reference_buffer(size, size_of_type)`: allocate `size *
size_of_type` bytes and register the fresh address with
`update_or_insert(buffer, ++count, get_initial_use_count())`. -/
def srbAllocCtor (s : GState) (count elemSize : Nat) : GState × SRB :=
  let addr := s.nextAddr
  let sz := count * elemSize
  ({ rc := rcUpdateOrInsert s.rc addr (· + 1) (getInitialUseCount s.rc),
     heap := ainsertR s.heap addr (List.replicate sz 0),
     nextAddr := s.nextAddr + 1 },
   { buffer := addr, size := sz })

/-- The copy constructor: reject a default-constructed source, otherwise alias
the buffer and bump its count with `update` (throws if the address is not in
the RC map). -/
def srbCopyCtor (s : GState) (other : SRB) : GState × Option SRB × Option SrbErr :=
  if other.buffer = 0 then (s, none, some .invalidInstance)
  else
    match rcUpdate s.rc other.buffer (· + 1) with
    | none => (s, none, some .missingKey)
    | some (rc', _) =>
      ({ s with rc := rc' }, some { buffer := other.buffer, size := other.size }, none)

/-- `stable_reference_buffer(const void*)`: accept only addresses already in
the RC map (`update` with the "was not created by stable_reference_buffer"
error), bump the count, and take over the address with unknown length 0. -/
def srbFromRaw (s : GState) (a : Nat) : GState × Option SRB × Option SrbErr :=
  match rcUpdate s.rc a (· + 1) with
  | none => (s, none, some .addressUnmanaged)
  | some (rc', _) => ({ s with rc := rc' }, some { buffer := a, size := 0 }, none)

/-- `stable_reference_buffer::reset`: when the buffer address `is_known`,
decrement its count with `update`; on reaching zero erase the entry and free
the block (`buffer::reset`).  The instance always ends empty. -/
def srbReset (s : GState) (inst : SRB) : GState × SRB :=
  if isKnownB s inst.buffer then
    match rcUpdate s.rc inst.buffer (· - 1) with
    | some (rc', updated) =>
      if updated = 0 then
        ({ s with rc := aerase rc' inst.buffer, heap := aerase s.heap inst.buffer },
         { buffer := 0, size := 0 })
      else ({ s with rc := rc' }, { buffer := 0, size := 0 })
    | none => (s, { buffer := 0, size := 0 })
  else (s, { buffer := 0, size := 0 })

/-- The copy assignment operator for distinct objects: reject a
default-constructed source, otherwise `reset()` this instance, then alias and
bump the source's count. -/
def srbCopyAssign (s : GState) (this other : SRB) : GState × SRB × Option SrbErr :=
  if other.buffer = 0 then (s, this, some .invalidInstance)
  else
    let s1 := (srbReset s this).1
    match rcUpdate s1.rc other.buffer (· + 1) with
    | none => (s1, { buffer := other.buffer, size := other.size }, some .missingKey)
    | some (rc', _) =>
      ({ s1 with rc := rc' }, { buffer := other.buffer, size := other.size }, none)

/-- The COW path's zero-count cleanup: `if (remaining == 0) { std::free(_buffer);
_use_count->erase(_buffer); }`. -/
def cowCleanup (remaining : Int) (rc1 : AList Int) (heap : AList (List Nat)) (b : Nat) :
    AList Int × AList (List Nat) :=
  if remaining = 0 then (aerase rc1 b, aerase heap b) else (rc1, heap)

/-- `stable_reference_buffer::append(data, len)`.  Mirrors the source: reject
a foreign raw wrapper (known base, length 0); if other instances still
reference the block (`at_or_default(buffer, 0) > 1`) run the copy-on-write
path (fresh block holding old bytes then appended bytes, decrement the old
count with free-and-erase on zero, register the new base at the current
initial count); otherwise `buffer::append` reallocates, transferring the
refcount entry when `realloc` moved the block (`reallocMoves` resolves the
allocator's nondeterminism) or registering a fresh block when there was no
buffer yet. -/
def appendSRB (s : GState) (inst : SRB) (data : List Nat) (reallocMoves : Bool) :
    GState × SRB × Option SrbErr :=
  if inst.size = 0 ∧ inst.buffer ≠ 0 then
    (s, inst, some SrbErr.cannotAppendUnknownLength)
  else if inst.buffer ≠ 0 ∧ 1 < rcAtOrDefault s.rc inst.buffer 0 then
    let newSize := inst.size + data.length
    let newAddr := s.nextAddr
    let newBytes := ((alookup s.heap inst.buffer).getD []).take inst.size ++ data
    let remaining : Int :=
      match rcUpdate s.rc inst.buffer (· - 1) with
      | some (_, u) => u
      | none => 0
    let rc1 : AList Int :=
      match rcUpdate s.rc inst.buffer (· - 1) with
      | some (m, _) => m
      | none => s.rc
    let cleaned := cowCleanup remaining rc1 s.heap inst.buffer
    ({ rc := ainsertR cleaned.1 newAddr (getInitialUseCount cleaned.1),
       heap := ainsertR cleaned.2 newAddr newBytes,
       nextAddr := s.nextAddr + 1 },
     { buffer := newAddr, size := newSize }, none)
  else
    if inst.buffer = 0 then
      let newAddr := s.nextAddr
      ({ rc := ainsertR s.rc newAddr (getInitialUseCount s.rc),
         heap := ainsertR s.heap newAddr data,
         nextAddr := s.nextAddr + 1 },
       { buffer := newAddr, size := data.length }, none)
    else
      let oldCount := rcAtOrDefault s.rc inst.buffer (getInitialUseCount s.rc)
      let newBytes := ((alookup s.heap inst.buffer).getD []).take inst.size ++ data
      if reallocMoves then
        let newAddr := s.nextAddr
        ({ rc := aerase (ainsertR s.rc newAddr oldCount) inst.buffer,
           heap := ainsertR (aerase s.heap inst.buffer) newAddr newBytes,
           nextAddr := s.nextAddr + 1 },
         { buffer := newAddr, size := inst.size + data.length }, none)
      else
        ({ s with heap := ainsertR s.heap inst.buffer newBytes },
         { buffer := inst.buffer, size := inst.size + data.length }, none)

/-- The operations of claim C1, indexing live instances by position. -/
inductive SrbOp where
  | alloc (count elemSize : Nat)
  | copyCtor (i : Nat)
  | copyAssign (i j : Nat)
  | fromRaw (a : Nat)
  | reset (i : Nat)
  | destroy (i : Nat)

/-- One operation on the global state and the list of live instances.  A
failed construction adds no instance; destruction resets and removes the
instance; an out-of-range index is a no-op. -/
def stepSRB (c : GState × List SRB) (op : SrbOp) : GState × List SRB :=
  let s := c.1
  let insts := c.2
  match op with
  | .alloc n e =>
    let r := srbAllocCtor s n e
    (r.1, insts ++ [r.2])
  | .copyCtor i =>
    match insts[i]? with
    | some o =>
      match srbCopyCtor s o with
      | (s', some b, _) => (s', insts ++ [b])
      | (s', none, _) => (s', insts)
    | none => (s, insts)
  | .copyAssign i j =>
    if i = j then (s, insts)
    else
      match insts[i]?, insts[j]? with
      | some t, some o =>
        let r := srbCopyAssign s t o
        (r.1, insts.set i r.2.1)
      | _, _ => (s, insts)
  | .fromRaw a =>
    match srbFromRaw s a with
    | (s', some b, _) => (s', insts ++ [b])
    | (s', none, _) => (s', insts)
  | .reset i =>
    match insts[i]? with
    | some t =>
      let r := srbReset s t
      (r.1, insts.set i r.2)
    | none => (s, insts)
  | .destroy i =>
    match insts[i]? with
    | some t => ((srbReset s t).1, insts.eraseIdx i)
    | none => (s, insts)

/-- The initial state: empty RC map, empty heap, no live instance. -/
def initSRB : GState × List SRB :=
  ({ rc := [], heap := [], nextAddr := 1 }, [])

/-- Run a sequence of operations from the initial state. -/
def runSRB (ops : List SrbOp) : GState × List SRB := ops.foldl stepSRB initSRB

/-- The number of live instances currently referring to address `a`. -/
def liveCount (insts : List SRB) (a : Nat) : Nat :=
  (insts.filter (fun b => b.buffer == a)).length

/-- The RC bookkeeping invariant of claim C1 (no delay scope active): the
sentinel is absent, every non-null entry equals the number of live instances
referring to the address, the heap holds exactly the RC-mapped blocks, and the
allocator cursor is ahead of every mapped address. -/
structure SRBInv (s : GState) (insts : List SRB) : Prop where
  sentinel : alookup s.rc 0 = none
  counts : ∀ a : Nat, a ≠ 0 →
    alookup s.rc a = if liveCount insts a = 0 then none else some (liveCount insts a : Int)
  heapDom : ∀ a : Nat, (alookup s.heap a).isSome = (alookup s.rc a).isSome
  fresh : ∀ a : Nat, (alookup s.rc a).isSome → a < s.nextAddr
  posAddr : 0 < s.nextAddr

theorem liveCount_cons (x : SRB) (l : List SRB) (a : Nat) :
    liveCount (x :: l) a = (if x.buffer = a then 1 else 0) + liveCount l a := by
  by_cases h : x.buffer = a <;> simp [liveCount, List.filter_cons, h, Nat.add_comm]

theorem liveCount_append_single (insts : List SRB) (b : SRB) (a : Nat) :
    liveCount (insts ++ [b]) a = liveCount insts a + (if b.buffer = a then 1 else 0) := by
  by_cases h : b.buffer = a <;> simp [liveCount, List.filter_append, h]

theorem liveCount_set (insts : List SRB) (i : Nat) (t t' : SRB)
    (h : insts[i]? = some t) (a : Nat) :
    liveCount (insts.set i t') a + (if t.buffer = a then 1 else 0)
      = liveCount insts a + (if t'.buffer = a then 1 else 0) := by
  induction insts generalizing i with
  | nil => simp at h
  | cons x xs ih =>
    cases i with
    | zero =>
      simp only [List.getElem?_cons_zero, Option.some.injEq] at h
      subst h
      rw [List.set_cons_zero, liveCount_cons, liveCount_cons]
      omega
    | succ n =>
      simp only [List.getElem?_cons_succ] at h
      rw [List.set_cons_succ, liveCount_cons, liveCount_cons]
      have := ih n h
      omega

theorem liveCount_eraseIdx (insts : List SRB) (i : Nat) (t : SRB)
    (h : insts[i]? = some t) (a : Nat) :
    liveCount insts a = liveCount (insts.eraseIdx i) a + (if t.buffer = a then 1 else 0) := by
  induction insts generalizing i with
  | nil => simp at h
  | cons x xs ih =>
    cases i with
    | zero =>
      simp only [List.getElem?_cons_zero, Option.some.injEq] at h
      subst h
      rw [List.eraseIdx_cons_zero, liveCount_cons]
      omega
    | succ n =>
      simp only [List.getElem?_cons_succ] at h
      rw [List.eraseIdx_cons_succ, liveCount_cons, liveCount_cons]
      have := ih n h
      omega

theorem liveCount_pos_of_getElem (insts : List SRB) (i : Nat) (t : SRB)
    (h : insts[i]? = some t) : 0 < liveCount insts t.buffer := by
  induction insts generalizing i with
  | nil => simp at h
  | cons x xs ih =>
    cases i with
    | zero =>
      simp only [List.getElem?_cons_zero, Option.some.injEq] at h
      subst h
      rw [liveCount_cons]
      simp
    | succ n =>
      simp only [List.getElem?_cons_succ] at h
      rw [liveCount_cons]
      have := ih n h
      omega

theorem getInitialUseCount_sentinel {rc : AList Int} (h : alookup rc 0 = none) :
    getInitialUseCount rc = 1 := by
  simp [getInitialUseCount, rcAtOrDefault, h]

theorem liveCount_zero_of_lookup_none {s : GState} {insts : List SRB}
    (h : SRBInv s insts) {a : Nat} (ha : a ≠ 0) (hn : alookup s.rc a = none) :
    liveCount insts a = 0 := by
  by_contra hne
  have hc := h.counts a ha
  rw [hn, if_neg hne] at hc
  exact Option.noConfusion hc

theorem lookup_eq_liveCount {s : GState} {insts : List SRB}
    (h : SRBInv s insts) {a : Nat} (ha : a ≠ 0) (hpos : 0 < liveCount insts a) :
    alookup s.rc a = some (liveCount insts a : Int) := by
  have hc := h.counts a ha
  rw [if_neg (by omega)] at hc
  exact hc

theorem inv_bump_general (s : GState) (insts insts' : List SRB) (b : SRB)
    (h : SRBInv s insts) (hb : b.buffer ≠ 0) (hpos : 0 < liveCount insts b.buffer)
    (hlc : ∀ a : Nat, a ≠ 0 →
      liveCount insts' a = liveCount insts a + (if b.buffer = a then 1 else 0)) :
    SRBInv { s with rc := ainsertR s.rc b.buffer ((liveCount insts b.buffer : Int) + 1) }
      insts' := by
  refine ⟨?_, ?_, ?_, ?_, ?_⟩ <;> dsimp only
  · rw [alookup_ainsertR, if_neg (fun hh : (0 : Nat) = b.buffer => hb hh.symm)]
    exact h.sentinel
  · intro a ha
    rw [alookup_ainsertR, hlc a ha]
    by_cases hax : a = b.buffer
    · rw [if_pos hax, hax]
      have h1 : (if b.buffer = b.buffer then 1 else 0) = 1 := if_pos rfl
      rw [h1, if_neg (by omega)]
      norm_cast
    · have h0 : (if b.buffer = a then 1 else 0) = 0 := if_neg (fun hh => hax hh.symm)
      rw [if_neg hax, h0, Nat.add_zero]
      exact h.counts a ha
  · intro a
    rw [alookup_ainsertR]
    by_cases hax : a = b.buffer
    · rw [if_pos hax, h.heapDom a, hax, lookup_eq_liveCount h hb hpos]
      rfl
    · rw [if_neg hax]
      exact h.heapDom a
  · intro a
    rw [alookup_ainsertR]
    by_cases hax : a = b.buffer
    · intro _
      exact h.fresh a (by rw [hax, lookup_eq_liveCount h hb hpos]; rfl)
    · rw [if_neg hax]
      exact h.fresh a
  · exact h.posAddr

theorem inv_bump (s : GState) (insts : List SRB) (b : SRB)
    (h : SRBInv s insts) (hb : b.buffer ≠ 0) (hpos : 0 < liveCount insts b.buffer) :
    SRBInv { s with rc := ainsertR s.rc b.buffer ((liveCount insts b.buffer : Int) + 1) }
      (insts ++ [b]) :=
  inv_bump_general s insts (insts ++ [b]) b h hb hpos
    (fun a _ => liveCount_append_single insts b a)

theorem inv_alloc (s : GState) (insts : List SRB) (n e : Nat) (h : SRBInv s insts) :
    SRBInv (srbAllocCtor s n e).1 (insts ++ [(srbAllocCtor s n e).2]) := by
  have haddr0 : s.nextAddr ≠ 0 := by have := h.posAddr; omega
  have hnotin : alookup s.rc s.nextAddr = none := by
    cases hx : alookup s.rc s.nextAddr with
    | none => rfl
    | some c =>
      have := h.fresh s.nextAddr (by simp [hx])
      omega
  have hlive0 : liveCount insts s.nextAddr = 0 :=
    liveCount_zero_of_lookup_none h haddr0 hnotin
  have hrc' : rcUpdateOrInsert s.rc s.nextAddr (· + 1) (getInitialUseCount s.rc)
      = ainsertR s.rc s.nextAddr 1 := by
    simp [rcUpdateOrInsert, hnotin, getInitialUseCount_sentinel h.sentinel]
  simp only [srbAllocCtor, hrc']
  refine ⟨?_, ?_, ?_, ?_, ?_⟩ <;> dsimp only
  · rw [alookup_ainsertR, if_neg (fun hh : (0 : Nat) = s.nextAddr => haddr0 hh.symm)]
    exact h.sentinel
  · intro a ha
    rw [alookup_ainsertR, liveCount_append_single]
    dsimp only
    by_cases hax : a = s.nextAddr
    · rw [if_pos hax, hax]
      have h1 : (if s.nextAddr = s.nextAddr then 1 else 0) = 1 := if_pos rfl
      rw [h1, hlive0, if_neg (by omega)]
      norm_num
    · have h0 : (if s.nextAddr = a then 1 else 0) = 0 := if_neg (fun hh => hax hh.symm)
      rw [if_neg hax, h0, Nat.add_zero]
      exact h.counts a ha
  · intro a
    rw [alookup_ainsertR, alookup_ainsertR]
    by_cases hax : a = s.nextAddr
    · rw [if_pos hax, if_pos hax]
      rfl
    · rw [if_neg hax, if_neg hax]
      exact h.heapDom a
  · intro a
    rw [alookup_ainsertR]
    by_cases hax : a = s.nextAddr
    · intro _
      omega
    · rw [if_neg hax]
      intro hs
      have := h.fresh a hs
      omega
  · have := h.posAddr; omega

theorem inv_copyCtor (s : GState) (insts : List SRB) (i : Nat)
    (h : SRBInv s insts) :
    SRBInv (stepSRB (s, insts) (SrbOp.copyCtor i)).1
      (stepSRB (s, insts) (SrbOp.copyCtor i)).2 := by
  rw [stepSRB]
  cases hin : insts[i]? with
  | none => exact h
  | some o =>
    by_cases hb : o.buffer = 0
    · simp only [srbCopyCtor, if_pos hb]
      exact h
    · have hpos : 0 < liveCount insts o.buffer := liveCount_pos_of_getElem insts i o hin
      have hsome : alookup s.rc o.buffer = some (liveCount insts o.buffer : Int) :=
        lookup_eq_liveCount h hb hpos
      simp only [srbCopyCtor, if_neg hb, rcUpdate, hsome]
      have hcopy : ({ buffer := o.buffer, size := o.size } : SRB) = o := rfl
      rw [hcopy]
      exact inv_bump s insts o h hb hpos

theorem inv_fromRaw (s : GState) (insts : List SRB) (a : Nat)
    (h : SRBInv s insts) :
    SRBInv (stepSRB (s, insts) (SrbOp.fromRaw a)).1
      (stepSRB (s, insts) (SrbOp.fromRaw a)).2 := by
  rw [stepSRB]
  cases hx : alookup s.rc a with
  | none =>
    simp only [srbFromRaw, rcUpdate, hx]
    exact h
  | some c =>
    have ha0 : a ≠ 0 := by
      intro hh
      subst hh
      rw [h.sentinel] at hx
      exact Option.noConfusion hx
    have hlive : liveCount insts a ≠ 0 := by
      intro hl
      have hc := h.counts a ha0
      rw [hx, if_pos hl] at hc
      exact Option.noConfusion hc
    have hceq : c = (liveCount insts a : Int) := by
      have hc := h.counts a ha0
      rw [hx, if_neg hlive] at hc
      exact Option.some.inj hc
    simp only [srbFromRaw, rcUpdate, hx, hceq]
    have hbuf : ({ buffer := a, size := 0 } : SRB).buffer = a := rfl
    have := inv_bump s insts { buffer := a, size := 0 } h (by rw [hbuf]; exact ha0)
      (by rw [hbuf]; omega)
    rw [hbuf] at this
    exact this

theorem isKnownB_eq_true {s : GState} {a : Nat} :
    isKnownB s a = true ↔ a ≠ 0 ∧ (alookup s.rc a).isSome := by
  rw [isKnownB]
  by_cases h : a = 0
  · simp [h]
  · rw [if_neg h, acount]
    cases alookup s.rc a <;> simp [h]

theorem inv_reset_core (s : GState) (insts : List SRB) (i : Nat) (t : SRB)
    (h : SRBInv s insts) (hin : insts[i]? = some t) :
    SRBInv (srbReset s t).1 (insts.set i (srbReset s t).2) := by
  by_cases hk : isKnownB s t.buffer
  · obtain ⟨hb0, hsome⟩ := isKnownB_eq_true.mp hk
    have hpos : 0 < liveCount insts t.buffer := liveCount_pos_of_getElem insts i t hin
    have hc : alookup s.rc t.buffer = some (liveCount insts t.buffer : Int) :=
      lookup_eq_liveCount h hb0 hpos
    rw [srbReset, if_pos hk, rcUpdate, hc]
    dsimp only
    have hset := liveCount_set insts i t { buffer := 0, size := 0 } hin
    by_cases hone : liveCount insts t.buffer = 1
    · have hz : ((liveCount insts t.buffer : Int) - 1 = 0) := by omega
      rw [if_pos hz]
      refine ⟨?_, ?_, ?_, ?_, h.posAddr⟩ <;> dsimp only
      · rw [alookup_aerase, if_neg (fun hh : (0 : Nat) = t.buffer => hb0 hh.symm)]
        rw [alookup_ainsertR, if_neg (fun hh : (0 : Nat) = t.buffer => hb0 hh.symm)]
        exact h.sentinel
      · intro a ha
        have hlc := hset a
        rw [alookup_aerase]
        by_cases hax : a = t.buffer
        · subst hax
          rw [if_pos rfl]
          have h1 : (if t.buffer = t.buffer then 1 else 0) = 1 := if_pos rfl
          have h0 : (if ({ buffer := 0, size := 0 } : SRB).buffer = t.buffer then 1 else 0) = 0 :=
            if_neg (fun hh => ha hh.symm)
          rw [h1, h0] at hlc
          have hl0 : liveCount (insts.set i { buffer := 0, size := 0 }) t.buffer = 0 := by omega
          rw [hl0, if_pos rfl]
        · rw [if_neg hax, alookup_ainsertR, if_neg hax]
          have h1 : (if t.buffer = a then 1 else 0) = 0 := if_neg (fun hh => hax hh.symm)
          have h0 : (if ({ buffer := 0, size := 0 } : SRB).buffer = a then 1 else 0) = 0 :=
            if_neg (fun hh => ha hh.symm)
          rw [h1, h0] at hlc
          have heq : liveCount (insts.set i { buffer := 0, size := 0 }) a
              = liveCount insts a := by omega
          rw [heq]
          exact h.counts a ha
      · intro a
        rw [alookup_aerase, alookup_aerase]
        by_cases hax : a = t.buffer
        · rw [if_pos hax, if_pos hax]
          rfl
        · rw [if_neg hax, if_neg hax, alookup_ainsertR, if_neg hax]
          exact h.heapDom a
      · intro a
        rw [alookup_aerase]
        by_cases hax : a = t.buffer
        · rw [if_pos hax]
          intro hfalse
          exact absurd hfalse (by simp)
        · rw [if_neg hax, alookup_ainsertR, if_neg hax]
          exact h.fresh a
    · have hz : ¬ ((liveCount insts t.buffer : Int) - 1 = 0) := by omega
      rw [if_neg hz]
      refine ⟨?_, ?_, ?_, ?_, h.posAddr⟩ <;> dsimp only
      · rw [alookup_ainsertR, if_neg (fun hh : (0 : Nat) = t.buffer => hb0 hh.symm)]
        exact h.sentinel
      · intro a ha
        have hlc := hset a
        rw [alookup_ainsertR]
        by_cases hax : a = t.buffer
        · subst hax
          rw [if_pos rfl]
          have h1 : (if t.buffer = t.buffer then 1 else 0) = 1 := if_pos rfl
          have h0 : (if ({ buffer := 0, size := 0 } : SRB).buffer = t.buffer then 1 else 0) = 0 :=
            if_neg (fun hh => ha hh.symm)
          rw [h1, h0] at hlc
          have hlc' : liveCount (insts.set i { buffer := 0, size := 0 }) t.buffer
              = liveCount insts t.buffer - 1 := by omega
          rw [hlc', if_neg (by omega)]
          have hcast : ((liveCount insts t.buffer - 1 : Nat) : Int)
              = (liveCount insts t.buffer : Int) - 1 := by omega
          rw [hcast]
        · rw [if_neg hax]
          have h1 : (if t.buffer = a then 1 else 0) = 0 := if_neg (fun hh => hax hh.symm)
          have h0 : (if ({ buffer := 0, size := 0 } : SRB).buffer = a then 1 else 0) = 0 :=
            if_neg (fun hh => ha hh.symm)
          rw [h1, h0] at hlc
          have heq : liveCount (insts.set i { buffer := 0, size := 0 }) a
              = liveCount insts a := by omega
          rw [heq]
          exact h.counts a ha
      · intro a
        rw [alookup_ainsertR]
        by_cases hax : a = t.buffer
        · rw [if_pos hax, h.heapDom a, hax, hc]
          rfl
        · rw [if_neg hax]
          exact h.heapDom a
      · intro a
        rw [alookup_ainsertR]
        by_cases hax : a = t.buffer
        · intro _
          exact h.fresh a (by rw [hax, hc]; rfl)
        · rw [if_neg hax]
          exact h.fresh a
  · rw [srbReset, if_neg hk]
    have hz : t.buffer = 0 := by
      by_contra hnz
      cases hx : alookup s.rc t.buffer with
      | some c => exact hk (isKnownB_eq_true.mpr ⟨hnz, by simp [hx]⟩)
      | none =>
        have h1 := liveCount_zero_of_lookup_none h hnz hx
        have h2 := liveCount_pos_of_getElem insts i t hin
        omega
    have hall : ∀ a : Nat, a ≠ 0 →
        liveCount (insts.set i { buffer := 0, size := 0 }) a = liveCount insts a := by
      intro a ha
      have hlc := liveCount_set insts i t { buffer := 0, size := 0 } hin a
      have h0 : (if ({ buffer := 0, size := 0 } : SRB).buffer = a then 1 else 0) = 0 :=
        if_neg (fun hh => ha hh.symm)
      have h1 : (if t.buffer = a then 1 else 0) = 0 :=
        if_neg (fun hh => ha (hz ▸ hh).symm)
      rw [h0, h1] at hlc
      omega
    exact ⟨h.sentinel, fun a ha => by rw [hall a ha]; exact h.counts a ha,
      h.heapDom, h.fresh, h.posAddr⟩

theorem getElem?_set_other {α : Type} (l : List α) (i j : Nat) (b : α) (h : i ≠ j) :
    (l.set i b)[j]? = l[j]? := by
  induction l generalizing i j with
  | nil => simp
  | cons x xs ih =>
    cases i with
    | zero =>
      cases j with
      | zero => exact absurd rfl h
      | succ m => simp [List.set_cons_zero]
    | succ n =>
      cases j with
      | zero => simp [List.set_cons_succ]
      | succ m =>
        simp only [List.set_cons_succ, List.getElem?_cons_succ]
        exact ih n m (fun hh => h (by omega))

theorem set_set_same {α : Type} (l : List α) (i : Nat) (a b : α) :
    (l.set i a).set i b = l.set i b := by
  induction l generalizing i with
  | nil => simp
  | cons x xs ih =>
    cases i with
    | zero => simp [List.set_cons_zero]
    | succ n =>
      simp only [List.set_cons_succ]
      rw [ih n]

theorem set_self {α : Type} (l : List α) (i : Nat) (t : α) (h : l[i]? = some t) :
    l.set i t = l := by
  induction l generalizing i with
  | nil => simp
  | cons x xs ih =>
    cases i with
    | zero =>
      simp only [List.getElem?_cons_zero, Option.some.injEq] at h
      rw [List.set_cons_zero, h]
    | succ n =>
      simp only [List.getElem?_cons_succ] at h
      rw [List.set_cons_succ, ih n h]

theorem srbReset_snd (s : GState) (t : SRB) :
    (srbReset s t).2 = { buffer := 0, size := 0 } := by
  unfold srbReset
  split
  · split
    · split <;> rfl
    · rfl
  · rfl

theorem liveCount_eraseIdx_eq (insts : List SRB) (i : Nat) (t : SRB)
    (hin : insts[i]? = some t) (a : Nat) (ha : a ≠ 0) :
    liveCount (insts.eraseIdx i) a
      = liveCount (insts.set i { buffer := 0, size := 0 }) a := by
  have h1 := liveCount_set insts i t { buffer := 0, size := 0 } hin a
  have h2 := liveCount_eraseIdx insts i t hin a
  have h0 : (if ({ buffer := 0, size := 0 } : SRB).buffer = a then 1 else 0) = 0 :=
    if_neg (fun hh => ha hh.symm)
  rw [h0] at h1
  by_cases hba : t.buffer = a
  · have ht : (if t.buffer = a then 1 else 0) = 1 := if_pos hba
    rw [ht] at h1 h2
    omega
  · have ht : (if t.buffer = a then 1 else 0) = 0 := if_neg hba
    rw [ht] at h1 h2
    omega

theorem inv_destroy (s : GState) (insts : List SRB) (i : Nat)
    (h : SRBInv s insts) :
    SRBInv (stepSRB (s, insts) (SrbOp.destroy i)).1
      (stepSRB (s, insts) (SrbOp.destroy i)).2 := by
  rw [stepSRB]
  cases hin : insts[i]? with
  | none => exact h
  | some t =>
    have hcore := inv_reset_core s insts i t h hin
    rw [srbReset_snd] at hcore
    exact ⟨hcore.sentinel,
      fun a ha => by rw [liveCount_eraseIdx_eq insts i t hin a ha]; exact hcore.counts a ha,
      hcore.heapDom, hcore.fresh, hcore.posAddr⟩

theorem inv_reset_op (s : GState) (insts : List SRB) (i : Nat)
    (h : SRBInv s insts) :
    SRBInv (stepSRB (s, insts) (SrbOp.reset i)).1
      (stepSRB (s, insts) (SrbOp.reset i)).2 := by
  rw [stepSRB]
  cases hin : insts[i]? with
  | none => exact h
  | some t => exact inv_reset_core s insts i t h hin

theorem inv_copyAssign (s : GState) (insts : List SRB) (i j : Nat)
    (h : SRBInv s insts) :
    SRBInv (stepSRB (s, insts) (SrbOp.copyAssign i j)).1
      (stepSRB (s, insts) (SrbOp.copyAssign i j)).2 := by
  rw [stepSRB]
  by_cases hij : i = j
  · rw [if_pos hij]
    exact h
  · rw [if_neg hij]
    cases hti : insts[i]? with
    | none => exact h
    | some t =>
      cases htj : insts[j]? with
      | none => exact h
      | some o =>
        dsimp only
        by_cases hb : o.buffer = 0
        · rw [srbCopyAssign, if_pos hb]
          dsimp only
          rw [set_self insts i t hti]
          exact h
        · rw [srbCopyAssign, if_neg hb]
          dsimp only
          have hcore := inv_reset_core s insts i t h hti
          rw [srbReset_snd] at hcore
          have hoj : (insts.set i { buffer := 0, size := 0 })[j]? = some o := by
            rw [getElem?_set_other insts i j _ hij]
            exact htj
          have hpos : 0 < liveCount (insts.set i { buffer := 0, size := 0 }) o.buffer :=
            liveCount_pos_of_getElem _ j o hoj
          have hsome : alookup (srbReset s t).1.rc o.buffer
              = some (liveCount (insts.set i { buffer := 0, size := 0 }) o.buffer : Int) :=
            lookup_eq_liveCount hcore hb hpos
          rw [rcUpdate, hsome]
          dsimp only
          have hilen : i < insts.length := by
            by_contra hge
            rw [List.getElem?_eq_none (by omega)] at hti
            exact Option.noConfusion hti
          have hmid : (insts.set i { buffer := 0, size := 0 })[i]?
              = some { buffer := 0, size := 0 } := by
            rw [List.getElem?_set_self (by simpa using hilen)]
          have hlc : ∀ a : Nat, a ≠ 0 →
              liveCount (insts.set i { buffer := o.buffer, size := o.size }) a
                = liveCount (insts.set i { buffer := 0, size := 0 }) a
                  + (if ({ buffer := o.buffer, size := o.size } : SRB).buffer = a
                      then 1 else 0) := by
            intro a ha
            have hl1 := liveCount_set (insts.set i { buffer := 0, size := 0 }) i
              { buffer := 0, size := 0 } { buffer := o.buffer, size := o.size } hmid a
            rw [set_set_same] at hl1
            have h0 : (if ({ buffer := 0, size := 0 } : SRB).buffer = a then 1 else 0) = 0 :=
              if_neg (fun hh => ha hh.symm)
            rw [h0] at hl1
            omega
          exact inv_bump_general (srbReset s t).1 (insts.set i { buffer := 0, size := 0 })
            (insts.set i { buffer := o.buffer, size := o.size })
            { buffer := o.buffer, size := o.size } hcore hb hpos hlc

/-! ## `stable_reference_buffer::delay_deallocation`

The scope's constructor snapshots the RC map's keys and raises the sentinel
entry (key `0`) from the current initial use count to one more; the destructor
decrements once every key created during the scope (non-null keys absent from
the snapshot), frees and erases those that reach zero, and restores the
sentinel to its value at entry. -/

/-- The state captured by a `delay_deallocation` instance. -/
structure DelayScope where
  oldEntries : List Nat
  initialOnEntry : Int

/-- The keys of the RC map, as iterated by `foreach`. -/
def rcKeys (m : AList Int) : List Nat := m.map Prod.fst

/-- The `delay_deallocation` constructor: snapshot the keys, then
`insert(nullptr, initial_on_entry + 1)`. -/
def scopeEnter (s : GState) : DelayScope × GState :=
  let init := getInitialUseCount s.rc
  ({ oldEntries := rcKeys s.rc, initialOnEntry := init },
   { s with rc := ainsertR s.rc 0 (init + 1) })

/-- One iteration of the destructor's loop over the new entries:
`update(ptr, --c)` (skipping a vanished key), then free-and-erase on zero. -/
def decEntry (st : GState) (p : Nat) : GState :=
  match rcUpdate st.rc p (· - 1) with
  | none => st
  | some (rc', updated) =>
    if updated = 0 then { st with rc := aerase rc' p, heap := aerase st.heap p }
    else { st with rc := rc' }

/-- The `delay_deallocation` destructor: decrement every non-null key not in
the snapshot, then restore the sentinel to its value at entry. -/
def scopeExit (d : DelayScope) (s : GState) : GState :=
  let newEntries := (rcKeys s.rc).filter (fun p => !(p == 0) && !(d.oldEntries.contains p))
  let s' := newEntries.foldl decEntry s
  { s' with rc := ainsertR s'.rc 0 d.initialOnEntry }

/-- `k` nested `delay_deallocation` scopes entered in succession. -/
def enterScopes : Nat → GState → GState
  | 0, s => s
  | k + 1, s => enterScopes k (scopeEnter s).2

theorem scopeEnter_rc_ne_zero (s : GState) (a : Nat) (ha : a ≠ 0) :
    alookup (scopeEnter s).2.rc a = alookup s.rc a := by
  rw [scopeEnter]
  dsimp only
  rw [alookup_ainsertR, if_neg ha]

theorem enterScopes_rc_ne_zero (k : Nat) (s : GState) (a : Nat) (ha : a ≠ 0) :
    alookup (enterScopes k s).rc a = alookup s.rc a := by
  induction k generalizing s with
  | zero => rfl
  | succ m ih => rw [enterScopes, ih, scopeEnter_rc_ne_zero s a ha]

theorem enterScopes_heap (k : Nat) (s : GState) : (enterScopes k s).heap = s.heap := by
  induction k generalizing s with
  | zero => rfl
  | succ m ih => rw [enterScopes, ih]; rfl

theorem enterScopes_nextAddr (k : Nat) (s : GState) :
    (enterScopes k s).nextAddr = s.nextAddr := by
  induction k generalizing s with
  | zero => rfl
  | succ m ih => rw [enterScopes, ih]; rfl

theorem enterScopes_initial (k : Nat) (s : GState) :
    getInitialUseCount (enterScopes k s).rc = getInitialUseCount s.rc + k := by
  induction k generalizing s with
  | zero => simp [enterScopes]
  | succ m ih =>
    rw [enterScopes, ih]
    have : getInitialUseCount (scopeEnter s).2.rc = getInitialUseCount s.rc + 1 := by
      rw [scopeEnter]
      dsimp only
      rw [getInitialUseCount, rcAtOrDefault, alookup_ainsertR, if_pos rfl]
      rfl
    rw [this]
    push_cast
    ring

theorem decEntry_other (st : GState) (p a : Nat) (ha : a ≠ p) :
    alookup (decEntry st p).rc a = alookup st.rc a ∧
    alookup (decEntry st p).heap a = alookup st.heap a := by
  rw [decEntry, rcUpdate]
  cases hx : alookup st.rc p with
  | none => exact ⟨rfl, rfl⟩
  | some c =>
    dsimp only
    by_cases hz : c - 1 = 0
    · rw [if_pos hz]
      constructor
      · dsimp only
        rw [alookup_aerase, if_neg ha, alookup_ainsertR, if_neg ha]
      · dsimp only
        rw [alookup_aerase, if_neg ha]
    · rw [if_neg hz]
      constructor
      · dsimp only
        rw [alookup_ainsertR, if_neg ha]
      · rfl

theorem foldl_decEntry_not_mem (l : List Nat) (st : GState) (a : Nat) (ha : a ∉ l) :
    alookup (l.foldl decEntry st).rc a = alookup st.rc a ∧
    alookup (l.foldl decEntry st).heap a = alookup st.heap a := by
  induction l generalizing st with
  | nil => exact ⟨rfl, rfl⟩
  | cons p t ih =>
    rw [List.foldl_cons]
    have hap : a ≠ p := fun hh => ha (by simp [hh])
    have hat : a ∉ t := fun hh => ha (by simp [hh])
    obtain ⟨h1, h2⟩ := ih (decEntry st p) hat
    obtain ⟨h3, h4⟩ := decEntry_other st p a hap
    exact ⟨h1.trans h3, h2.trans h4⟩

theorem decEntry_at (st : GState) (p : Nat) (c : Int) (hc : alookup st.rc p = some c) :
    (c = 1 → alookup (decEntry st p).rc p = none ∧ alookup (decEntry st p).heap p = none) ∧
    (c ≠ 1 → alookup (decEntry st p).rc p = some (c - 1) ∧
             alookup (decEntry st p).heap p = alookup st.heap p) := by
  rw [decEntry, rcUpdate, hc]
  dsimp only
  by_cases hz : c - 1 = 0
  · rw [if_pos hz]
    have hc1 : c = 1 := by omega
    constructor
    · intro _
      constructor
      · dsimp only
        rw [alookup_aerase, if_pos rfl]
      · dsimp only
        rw [alookup_aerase, if_pos rfl]
    · intro hne
      exact absurd hc1 hne
  · rw [if_neg hz]
    have hne1 : c ≠ 1 := by omega
    refine ⟨fun h1 => absurd h1 hne1, fun _ => ⟨?_, rfl⟩⟩
    dsimp only
    rw [alookup_ainsertR, if_pos rfl]

theorem foldl_decEntry_mem : ∀ (l : List Nat), l.Nodup → ∀ (st : GState) (a : Nat),
    a ∈ l → ∀ (c : Int), alookup st.rc a = some c →
    (c = 1 → alookup (l.foldl decEntry st).rc a = none ∧
             alookup (l.foldl decEntry st).heap a = none) ∧
    (c ≠ 1 → alookup (l.foldl decEntry st).rc a = some (c - 1)) := by
  intro l
  induction l with
  | nil =>
    intro _ st a hal
    simp at hal
  | cons p t ih =>
    intro hnd st a hal c hc
    rw [List.foldl_cons]
    rcases List.mem_cons.mp hal with heq | hat
    · subst heq
      have hpt : a ∉ t := (List.nodup_cons.mp hnd).1
      obtain ⟨hrc, hheap⟩ := foldl_decEntry_not_mem t (decEntry st a) a hpt
      have hd := decEntry_at st a c hc
      constructor
      · intro h1
        obtain ⟨ha1, ha2⟩ := hd.1 h1
        exact ⟨hrc.trans ha1, hheap.trans ha2⟩
      · intro hne
        exact hrc.trans (hd.2 hne).1
    · have hap : a ≠ p := by
        intro hh
        subst hh
        exact (List.nodup_cons.mp hnd).1 hat
      have hc' : alookup (decEntry st p).rc a = some c :=
        (decEntry_other st p a hap).1.trans hc
      exact ih (List.nodup_cons.mp hnd).2 (decEntry st p) a hat c hc'

theorem mem_rcKeys_of_lookup {m : AList Int} {a : Nat} {c : Int}
    (h : alookup m a = some c) : a ∈ rcKeys m := by
  induction m with
  | nil => simp [alookup] at h
  | cons p t ih =>
    obtain ⟨k', v'⟩ := p
    by_cases hk : a = k'
    · simp [rcKeys, hk]
    · rw [alookup, if_neg hk] at h
      simp [rcKeys]
      right
      simpa [rcKeys] using ih h

theorem alloc_in_scopes (s0 : GState) (k n e : Nat)
    (h0 : alookup s0.rc 0 = none) (hpos : 0 < s0.nextAddr)
    (hfresh : alookup s0.rc s0.nextAddr = none) :
    (srbAllocCtor (enterScopes k s0) n e).2.buffer = s0.nextAddr ∧
    alookup (srbAllocCtor (enterScopes k s0) n e).1.rc s0.nextAddr
      = some (1 + (k : Int)) ∧
    alookup (srbAllocCtor (enterScopes k s0) n e).1.heap s0.nextAddr
      = some (List.replicate (n * e) 0) := by
  have haddr0 : s0.nextAddr ≠ 0 := by omega
  have hnone : alookup (enterScopes k s0).rc s0.nextAddr = none := by
    rw [enterScopes_rc_ne_zero k s0 _ haddr0]
    exact hfresh
  have hinit : getInitialUseCount (enterScopes k s0).rc = 1 + (k : Int) := by
    rw [enterScopes_initial, getInitialUseCount_sentinel h0]
  rw [srbAllocCtor]
  dsimp only
  rw [enterScopes_nextAddr]
  refine ⟨rfl, ?_, ?_⟩
  · rw [rcUpdateOrInsert, hnone]
    dsimp only
    rw [alookup_ainsertR, if_pos rfl, hinit]
  · rw [alookup_ainsertR, if_pos rfl]

theorem srbReset_dec (s1 : GState) (b : SRB) (v : Int) (hb : b.buffer ≠ 0)
    (hv : alookup s1.rc b.buffer = some v) (hnz : ¬ (v - 1 = 0)) :
    (srbReset s1 b).1 = { s1 with rc := ainsertR s1.rc b.buffer (v - 1) } := by
  have hk : isKnownB s1 b.buffer = true := isKnownB_eq_true.mpr ⟨hb, by rw [hv]; rfl⟩
  rw [srbReset, if_pos hk, rcUpdate, hv]
  dsimp only
  rw [if_neg hnz]

theorem inv_stepSRB (c : GState × List SRB) (op : SrbOp) (h : SRBInv c.1 c.2) :
    SRBInv (stepSRB c op).1 (stepSRB c op).2 := by
  obtain ⟨s, insts⟩ := c
  cases op with
  | alloc n e =>
    rw [stepSRB]
    dsimp only
    exact inv_alloc s insts n e h
  | copyCtor i => exact inv_copyCtor s insts i h
  | copyAssign i j => exact inv_copyAssign s insts i j h
  | fromRaw a => exact inv_fromRaw s insts a h
  | reset i => exact inv_reset_op s insts i h
  | destroy i => exact inv_destroy s insts i h

theorem inv_initSRB : SRBInv initSRB.1 initSRB.2 := by
  refine ⟨rfl, ?_, ?_, ?_, ?_⟩ <;> simp [initSRB, alookup, liveCount]

theorem inv_runSRB (ops : List SrbOp) : SRBInv (runSRB ops).1 (runSRB ops).2 := by
  rw [runSRB]
  suffices hgen : ∀ (l : List SrbOp) (c : GState × List SRB), SRBInv c.1 c.2 →
      SRBInv (l.foldl stepSRB c).1 (l.foldl stepSRB c).2 from
    hgen ops initSRB inv_initSRB
  intro l
  induction l with
  | nil => intro c hc; exact hc
  | cons op t ih =>
    intro c hc
    rw [List.foldl_cons]
    exact ih _ (inv_stepSRB c op hc)

/-! ## Singleton registry (`cbeam::lifecycle::singleton` / `singleton_control`)

`singleton_control` keeps a process-wide name-keyed map of type-tagged owners
and a shutdown flag.  Constructed inner instances are identified by a counter
that never repeats, so "a fresh instance rather than the old one" is the
statement that the ids differ. -/

/-- Error surfaced by `singleton::get` on a type conflict. -/
inductive SingErr where
  | typeConflict
  deriving DecidableEq

/-- The registry: `_instances` (name ↦ type tag of the `singleton<T, ...>`
owner and the id of its inner instance), `_shutdown`, and the allocation
counter for fresh instance ids. -/
structure SingState where
  instances : List (String × Nat × Nat)
  shutdown : Bool
  counter : Nat
  deriving DecidableEq

/-- Lookup in the `_instances` map. -/
def slookup : List (String × Nat × Nat) → String → Option (Nat × Nat)
  | [], _ => none
  | (n, t, i) :: rest, name => if name = n then some (t, i) else slookup rest name

/-- `singleton_control::reset`: release every instance, clear the map, set
`_shutdown = true`. -/
def singletonControlReset (st : SingState) : SingState :=
  { instances := [], shutdown := true, counter := st.counter }

/-- `singleton_control::set_operational`: clear `_shutdown`. -/
def setOperational (st : SingState) : SingState := { st with shutdown := false }

/-- `singleton<T>::get(name, args...)`: empty handle while shut down (without
constructing); otherwise return the existing instance for `name`, constructing
a fresh one if absent; a type-tag mismatch fails with a type conflict. -/
def singletonGet (st : SingState) (name : String) (tag : Nat) :
    SingState × Option Nat × Option SingErr :=
  if st.shutdown then (st, none, none)
  else
    match slookup st.instances name with
    | none =>
      ({ st with instances := (name, tag, st.counter) :: st.instances,
                 counter := st.counter + 1 }, some st.counter, none)
    | some (t, i) =>
      if t = tag then (st, some i, none)
      else (st, none, some SingErr.typeConflict)

/-! ## Discrete-event model of `message_manager` backpressure (claim C6)

`send_message(id, payload, max_queued)` waits on the queue's `queue_cv` with
the predicate `max_queued == 0 || queue.size() < max_queued`; a waiting sender
runs again only when some step notifies `queue_cv`.  Each step below returns
the successor state together with the list of condition variables it
notifies, read off the source: `send_message` notifies `queue_cv` after
enqueueing; `get_message` (the handler dequeue) notifies nothing;
the tail of `on_message` notifies `queue_cv_empty` when the queue is empty
and no handler is busy. -/

/-- The two condition variables of a message queue. -/
inductive MMCV where
  | queueCv
  | queueCvEmpty
  deriving DecidableEq

/-- Queue state plus the observed sender blocked inside `send_message`. -/
structure MQState where
  queue : List Nat
  busy : Nat
  senderWaiting : Bool
  deriving DecidableEq

/-- `send_message` by the observed sender: enqueue and notify `queue_cv` when
the wait predicate holds, otherwise block on `queue_cv`. -/
def sendAttempt (st : MQState) (k : Nat) (p : Nat) : MQState × List MMCV :=
  if k = 0 ∨ st.queue.length < k then
    ({ st with queue := st.queue ++ [p] }, [MMCV.queueCv])
  else
    ({ st with senderWaiting := true }, [])

/-- A handler's `get_message` (FIFO): pop the front, bump the busy count.
The worker loop notifies no condition variable here. -/
def handlerDequeue (st : MQState) : MQState × List MMCV :=
  match st.queue with
  | [] => (st, [])
  | _ :: rest => ({ st with queue := rest, busy := st.busy + 1 }, [])

/-- The end of a handler's `on_message`: drop the busy count and notify
`queue_cv_empty` (only) when the queue is drained. -/
def handlerFinish (st : MQState) : MQState × List MMCV :=
  if st.queue.isEmpty ∧ st.busy - 1 = 0 then
    ({ st with busy := st.busy - 1 }, [MMCV.queueCvEmpty])
  else ({ st with busy := st.busy - 1 }, [])

/-- The blocked sender re-evaluates its wait predicate only when a step
notified `queue_cv`; it then enqueues and resumes. -/
def senderWake (st : MQState) (k p : Nat) (cvs : List MMCV) : MQState :=
  if MMCV.queueCv ∈ cvs ∧ st.senderWaiting ∧ (k = 0 ∨ st.queue.length < k) then
    { st with queue := st.queue ++ [p], senderWaiting := false }
  else st

end Cbeam

open Cbeam

/-- C2.  For every stable_reference_buffer `a` whose buffer address has
reference count greater than 1 in the RC map, `a.append(data, len)` performs
copy-on-write: it allocates a fresh block of size old_len + len whose contents
are the old bytes followed by the appended bytes, decrements the old address's
count (freeing and erasing the old entry only if the count reached zero),
registers the new address with the initial count, and leaves the bytes
reachable through every other live reference to the old address unchanged. -/
theorem append_copy_on_write (s : GState) (inst : SRB) (data : List Nat)
    (mv : Bool) (c : Int) (bytes : List Nat)
    (hb : inst.buffer ≠ 0) (hsz : 0 < inst.size)
    (hc : alookup s.rc inst.buffer = some c) (hc1 : 1 < c)
    (hbytes : alookup s.heap inst.buffer = some bytes)
    (hlen : bytes.length = inst.size)
    (hfresh : inst.buffer < s.nextAddr) :
    (appendSRB s inst data mv).2.2 = none ∧
    (appendSRB s inst data mv).2.1.buffer = s.nextAddr ∧
    (appendSRB s inst data mv).2.1.buffer ≠ inst.buffer ∧
    (appendSRB s inst data mv).2.1.size = inst.size + data.length ∧
    alookup (appendSRB s inst data mv).1.heap (appendSRB s inst data mv).2.1.buffer
      = some (bytes ++ data) ∧
    alookup (appendSRB s inst data mv).1.rc inst.buffer = some (c - 1) ∧
    alookup (appendSRB s inst data mv).1.heap inst.buffer = some bytes ∧
    alookup (appendSRB s inst data mv).1.rc (appendSRB s inst data mv).2.1.buffer
      = some (getInitialUseCount s.rc) ∧
    (∀ a : Nat, a ≠ (appendSRB s inst data mv).2.1.buffer →
      alookup (appendSRB s inst data mv).1.heap a = alookup s.heap a) := by
  have hbn : inst.buffer ≠ s.nextAddr := by omega
  have hne1 : ¬ (inst.size = 0 ∧ inst.buffer ≠ 0) := fun hh => by omega
  have hcond : inst.buffer ≠ 0 ∧ 1 < rcAtOrDefault s.rc inst.buffer 0 := by
    refine ⟨hb, ?_⟩
    rw [rcAtOrDefault, hc]
    exact hc1
  have hrem : ¬ ((c - 1 : Int) = 0) := by omega
  have htake : ((alookup s.heap inst.buffer).getD []).take inst.size = bytes := by
    rw [hbytes]
    show bytes.take inst.size = bytes
    rw [← hlen, List.take_length]
  rw [appendSRB, if_neg hne1, if_pos hcond]
  dsimp only
  rw [rcUpdate, hc]
  dsimp only
  rw [cowCleanup, if_neg hrem]
  dsimp only
  have hsent : alookup (ainsertR s.rc inst.buffer (c - 1)) 0 = alookup s.rc 0 := by
    rw [alookup_ainsertR, if_neg (fun hh : (0 : Nat) = inst.buffer => hb hh.symm)]
  refine ⟨rfl, rfl, Ne.symm hbn, rfl, ?_, ?_, ?_, ?_, ?_⟩
  · rw [alookup_ainsertR, if_pos rfl, htake]
  · rw [alookup_ainsertR, if_neg hbn, alookup_ainsertR, if_pos rfl]
  · rw [alookup_ainsertR, if_neg hbn]
    exact hbytes
  · rw [alookup_ainsertR, if_pos rfl, getInitialUseCount, getInitialUseCount,
      rcAtOrDefault, rcAtOrDefault, hsent]
  · intro a ha
    rw [alookup_ainsertR, if_neg ha]

/-- Witness for C2: a two-byte block `[17, 17]` shared by two references, with
`[34]` appended: the writer moves to the fresh address 2 holding
`[17, 17, 34]`, the old block keeps its bytes with count 1. -/
theorem append_copy_on_write_witness :
    alookup (appendSRB (GState.mk [(1, 2)] [(1, [17, 17])] 2)
        (SRB.mk 1 2) [34] false).1.heap 2 = some [17, 17, 34] ∧
    alookup (appendSRB (GState.mk [(1, 2)] [(1, [17, 17])] 2)
        (SRB.mk 1 2) [34] false).1.rc 1 = some 1 ∧
    alookup (appendSRB (GState.mk [(1, 2)] [(1, [17, 17])] 2)
        (SRB.mk 1 2) [34] false).1.heap 1 = some [17, 17] := by
  have h := append_copy_on_write (GState.mk [(1, 2)] [(1, [17, 17])] 2)
    (SRB.mk 1 2) [34] false 2 [17, 17] (by decide) (by decide) (by decide)
    (by decide) (by decide) (by decide) (by decide)
  obtain ⟨-, h2, -, -, h5, h6, h7, -, -⟩ := h
  refine ⟨?_, ?_, h7⟩
  · rw [h2] at h5
    exact h5
  · simpa using h6

/-- C7.  For every stable_reference_buffer constructed from a raw address
already managed by another instance, construction increments the RC map count
for that address, the resulting instance has size 0, and any subsequent append
on it fails with a cannot-append-to-unknown-length error while leaving the
instance and the RC map unchanged; constructing from an address not present in
the RC map fails. -/
theorem foreign_raw_wrapper (s : GState) (a : Nat) (c : Int) (data : List Nat)
    (mv : Bool) (ha : a ≠ 0) (hc : alookup s.rc a = some c) :
    (srbFromRaw s a).2.1 = some (SRB.mk a 0) ∧
    (srbFromRaw s a).2.2 = none ∧
    alookup (srbFromRaw s a).1.rc a = some (c + 1) ∧
    (∀ x : Nat, x ≠ a → alookup (srbFromRaw s a).1.rc x = alookup s.rc x) ∧
    appendSRB (srbFromRaw s a).1 (SRB.mk a 0) data mv
      = ((srbFromRaw s a).1, SRB.mk a 0, some SrbErr.cannotAppendUnknownLength) ∧
    (∀ (s' : GState) (x : Nat), alookup s'.rc x = none →
      srbFromRaw s' x = (s', none, some SrbErr.addressUnmanaged)) := by
  refine ⟨?_, ?_, ?_, ?_, ?_, ?_⟩
  · rw [srbFromRaw, rcUpdate, hc]
  · rw [srbFromRaw, rcUpdate, hc]
  · rw [srbFromRaw, rcUpdate, hc]
    dsimp only
    rw [alookup_ainsertR, if_pos rfl]
  · intro x hx
    rw [srbFromRaw, rcUpdate, hc]
    dsimp only
    rw [alookup_ainsertR, if_neg hx]
  · rw [appendSRB, if_pos ⟨rfl, ha⟩]
  · intro s' x hx
    rw [srbFromRaw, rcUpdate, hx]

/-- Witness for C7: wrapping the managed address 3 (count 1) bumps it to 2,
and appending through the wrapper fails without touching the state. -/
theorem foreign_raw_wrapper_witness :
    alookup (srbFromRaw (GState.mk [(3, 1)] [(3, [9])] 4) 3).1.rc 3 = some 2 ∧
    appendSRB (srbFromRaw (GState.mk [(3, 1)] [(3, [9])] 4) 3).1 (SRB.mk 3 0) [1] true
      = ((srbFromRaw (GState.mk [(3, 1)] [(3, [9])] 4) 3).1, SRB.mk 3 0,
         some SrbErr.cannotAppendUnknownLength) ∧
    srbFromRaw (GState.mk [(3, 1)] [(3, [9])] 4) 7
      = (GState.mk [(3, 1)] [(3, [9])] 4, none, some SrbErr.addressUnmanaged) := by
  have h := foreign_raw_wrapper (GState.mk [(3, 1)] [(3, [9])] 4) 3 1 [1] true
    (by decide) (by decide)
  exact ⟨by simpa using h.2.2.1, h.2.2.2.2.1, h.2.2.2.2.2 _ 7 (by decide)⟩

/-- C9.  For every program state, stable_reference_buffer::is_known(nullptr)
returns false — even while a delay_deallocation scope is active and the RC map
therefore contains an entry whose key is the null address (the sentinel
storing the initial use count), the null address is never reported as a
managed buffer address. -/
theorem is_known_null_always_false (s : GState) :
    isKnownB s 0 = false ∧
    isKnownB (scopeEnter s).2 0 = false ∧
    (alookup (scopeEnter s).2.rc 0).isSome = true := by
  refine ⟨rfl, rfl, ?_⟩
  rw [scopeEnter]
  dsimp only
  rw [alookup_ainsertR, if_pos rfl]
  rfl

/-- C5.  While at least one delay_deallocation scope is active, newly created
stable_reference_buffer blocks start with an initial reference count of 1 plus
the number of active scopes; a block created inside a scope remains allocated
(its address still satisfies is_known) even after every
stable_reference_buffer instance referencing it has been reset; and when the
scope exits, each entry created during the scope is decremented exactly once,
any entry reaching zero is freed and erased, and the stored initial count is
restored to its value at scope entry. -/
theorem delay_deallocation_scope :
    (∀ (s0 : GState) (k n e : Nat),
      alookup s0.rc 0 = none → 0 < s0.nextAddr →
      alookup s0.rc s0.nextAddr = none →
      alookup (srbAllocCtor (enterScopes k s0) n e).1.rc
          (srbAllocCtor (enterScopes k s0) n e).2.buffer = some (1 + (k : Int))) ∧
    (∀ (s0 : GState) (k n e : Nat),
      0 < k →
      alookup s0.rc 0 = none → 0 < s0.nextAddr →
      alookup s0.rc s0.nextAddr = none →
      alookup (srbReset (srbAllocCtor (enterScopes k s0) n e).1
          (srbAllocCtor (enterScopes k s0) n e).2).1.rc
          (srbAllocCtor (enterScopes k s0) n e).2.buffer = some (k : Int) ∧
      isKnownB (srbReset (srbAllocCtor (enterScopes k s0) n e).1
          (srbAllocCtor (enterScopes k s0) n e).2).1
          (srbAllocCtor (enterScopes k s0) n e).2.buffer = true ∧
      alookup (srbReset (srbAllocCtor (enterScopes k s0) n e).1
          (srbAllocCtor (enterScopes k s0) n e).2).1.heap
          (srbAllocCtor (enterScopes k s0) n e).2.buffer
        = some (List.replicate (n * e) 0)) ∧
    (∀ (d : DelayScope) (s : GState), (rcKeys s.rc).Nodup →
      (∀ (a : Nat) (c : Int), a ≠ 0 → a ∉ d.oldEntries → alookup s.rc a = some c →
        (c = 1 → alookup (scopeExit d s).rc a = none ∧
                 alookup (scopeExit d s).heap a = none) ∧
        (c ≠ 1 → alookup (scopeExit d s).rc a = some (c - 1))) ∧
      (∀ a : Nat, a ≠ 0 → a ∈ d.oldEntries →
        alookup (scopeExit d s).rc a = alookup s.rc a) ∧
      alookup (scopeExit d s).rc 0 = some d.initialOnEntry) := by
  refine ⟨?_, ?_, ?_⟩
  · intro s0 k n e h0 hpos hfresh
    obtain ⟨hbuf, hrc, _⟩ := alloc_in_scopes s0 k n e h0 hpos hfresh
    rw [hbuf]
    exact hrc
  · intro s0 k n e hk h0 hpos hfresh
    obtain ⟨hbuf, hrc, hheap⟩ := alloc_in_scopes s0 k n e h0 hpos hfresh
    have haddr0 : s0.nextAddr ≠ 0 := by omega
    have hknown : isKnownB (srbAllocCtor (enterScopes k s0) n e).1
        (srbAllocCtor (enterScopes k s0) n e).2.buffer = true := by
      rw [hbuf]
      exact isKnownB_eq_true.mpr ⟨haddr0, by rw [hrc]; rfl⟩
    have hz : ¬ ((1 + (k : Int)) - 1 = 0) := by omega
    have hres := srbReset_dec (srbAllocCtor (enterScopes k s0) n e).1
      (srbAllocCtor (enterScopes k s0) n e).2 (1 + (k : Int))
      (by rw [hbuf]; exact haddr0) (by rw [hbuf]; exact hrc) hz
    rw [hres, hbuf]
    refine ⟨?_, ?_, ?_⟩ <;> dsimp only
    · rw [alookup_ainsertR, if_pos rfl]
      congr 1
      omega
    · refine isKnownB_eq_true.mpr ⟨haddr0, ?_⟩
      dsimp only
      rw [alookup_ainsertR, if_pos rfl]
      rfl
    · exact hheap
  · intro d s hnd
    refine ⟨?_, ?_, ?_⟩
    · intro a c ha hold hc
      have hmem : a ∈ (rcKeys s.rc).filter
          (fun p => !(p == 0) && !(d.oldEntries.contains p)) := by
        rw [List.mem_filter]
        refine ⟨mem_rcKeys_of_lookup hc, ?_⟩
        simp [ha, hold]
      have hndf : ((rcKeys s.rc).filter
          (fun p => !(p == 0) && !(d.oldEntries.contains p))).Nodup :=
        hnd.filter _
      have hfold := foldl_decEntry_mem _ hndf s a hmem c hc
      rw [scopeExit]
      dsimp only
      constructor
      · intro h1
        obtain ⟨h2, h3⟩ := hfold.1 h1
        exact ⟨by rw [alookup_ainsertR, if_neg ha, h2], h3⟩
      · intro hne
        rw [alookup_ainsertR, if_neg ha]
        exact hfold.2 hne
    · intro a ha hold
      have hnot : a ∉ (rcKeys s.rc).filter
          (fun p => !(p == 0) && !(d.oldEntries.contains p)) := by
        rw [List.mem_filter]
        rintro ⟨_, hp⟩
        simp [hold] at hp
      rw [scopeExit]
      dsimp only
      rw [alookup_ainsertR, if_neg ha]
      exact (foldl_decEntry_not_mem _ s a hnot).1
    · rw [scopeExit]
      dsimp only
      rw [alookup_ainsertR, if_pos rfl]

/-- Witness for C5: with one active scope a ten-element allocation starts at
count 2, and leaving a scope whose snapshot is empty frees a block whose count
reached zero. -/
theorem delay_deallocation_scope_witness :
    alookup (srbAllocCtor (enterScopes 1 (GState.mk [] [] 1)) 10 4).1.rc
        (srbAllocCtor (enterScopes 1 (GState.mk [] [] 1)) 10 4).2.buffer = some 2 ∧
    alookup (scopeExit (DelayScope.mk [] 1) (GState.mk [(5, 1)] [(5, [42])] 6)).rc 5
        = none ∧
    alookup (scopeExit (DelayScope.mk [] 1) (GState.mk [(5, 1)] [(5, [42])] 6)).heap 5
        = none := by
  refine ⟨?_, ?_, ?_⟩
  · have h := delay_deallocation_scope.1 (GState.mk [] [] 1) 1 10 4 rfl (by decide) rfl
    rw [h]
    decide
  · exact ((delay_deallocation_scope.2.2 (DelayScope.mk [] 1)
      (GState.mk [(5, 1)] [(5, [42])] 6) (by decide)).1 5 1 (by decide) (by decide)
      (by decide)).1 rfl |>.1
  · exact ((delay_deallocation_scope.2.2 (DelayScope.mk [] 1)
      (GState.mk [(5, 1)] [(5, [42])] 6) (by decide)).1 5 1 (by decide) (by decide)
      (by decide)).1 rfl |>.2

/-- C1.  For every sequence of stable_reference_buffer operations
(allocate-construct, copy-construct, copy-assign, construct-from-raw-address,
reset, destroy) performed with no delay-deallocation scope active, the RC map
entry for each managed address equals the number of live
stable_reference_buffer instances currently referring to that address; when a
reset or destruction brings the count to zero, the block is freed and the
entry erased from the map; and the count stored for a managed address is never
negative. -/
theorem srb_refcount_invariant (ops : List SrbOp) :
    (∀ a : Nat, a ≠ 0 →
      alookup (runSRB ops).1.rc a
        = if liveCount (runSRB ops).2 a = 0 then none
          else some (liveCount (runSRB ops).2 a : Int)) ∧
    (∀ a : Nat, a ≠ 0 → liveCount (runSRB ops).2 a = 0 →
      alookup (runSRB ops).1.rc a = none ∧ alookup (runSRB ops).1.heap a = none) ∧
    (∀ (a : Nat) (c : Int), alookup (runSRB ops).1.rc a = some c → 0 < c) := by
  have h := inv_runSRB ops
  refine ⟨h.counts, ?_, ?_⟩
  · intro a ha hl
    have hrc : alookup (runSRB ops).1.rc a = none := by
      rw [h.counts a ha, if_pos hl]
    refine ⟨hrc, ?_⟩
    have := h.heapDom a
    rw [hrc] at this
    cases hh : alookup (runSRB ops).1.heap a with
    | none => rfl
    | some v => rw [hh] at this; simp at this
  · intro a c hc
    by_cases ha : a = 0
    · rw [ha, h.sentinel] at hc
      exact Option.noConfusion hc
    · have := h.counts a ha
      rw [hc] at this
      by_cases hl : liveCount (runSRB ops).2 a = 0
      · rw [if_pos hl] at this
        exact Option.noConfusion this
      · rw [if_neg hl] at this
        have hceq : c = (liveCount (runSRB ops).2 a : Int) := Option.some.inj this
        omega

/-- Witness for C1: allocate a four-byte block, copy the instance, reset the
original; the invariant yields the concrete count of the remaining reference. -/
theorem srb_refcount_invariant_witness :
    alookup (runSRB [SrbOp.alloc 4 1, SrbOp.copyCtor 0, SrbOp.reset 0]).1.rc 1 = some 1 := by
  have h := (srb_refcount_invariant [SrbOp.alloc 4 1, SrbOp.copyCtor 0, SrbOp.reset 0]).1
    1 (by decide)
  rw [h]
  decide

/-- C3.  For every stable interprocess container state and every mutation whose
re-serialized image would exceed the fixed segment capacity, the operation
fails with a capacity-exceeded error whose message includes the computed
required size, the current capacity, and the name of the tuning environment
variable `CBEAM_SRB_MAP_BYTES`, and the previously committed serialized image
in the segment is left unchanged (serialization is staged into a temporary
buffer and copied into the segment only when the size check passes). -/
theorem serialize_capacity_exceeded {α : Type} (enc : α → List Nat) (x : α)
    (seg : Segment) (h : (enc x).length > seg.capacity) :
    serializeToSegment enc x seg
        = (seg, some (capacityErrorMessage (enc x).length seg.capacity)) ∧
    strOccurs (toString (enc x).length)
        (capacityErrorMessage (enc x).length seg.capacity) ∧
    strOccurs (toString seg.capacity)
        (capacityErrorMessage (enc x).length seg.capacity) ∧
    strOccurs "CBEAM_SRB_MAP_BYTES"
        (capacityErrorMessage (enc x).length seg.capacity) := by
  refine ⟨?_, strOccurs_capacityErrorMessage (enc x).length seg.capacity⟩
  rw [serializeToSegment, if_pos h]

/-- Witness for C3: committing a three-byte image into a two-byte segment
fails, leaves the segment unchanged, and reports sizes and the variable name. -/
theorem serialize_capacity_exceeded_witness :
    ([1, 2, 3].length > (Segment.mk 2 [9, 9]).capacity) ∧
    serializeToSegment id [1, 2, 3] (Segment.mk 2 [9, 9])
        = (Segment.mk 2 [9, 9], some (capacityErrorMessage 3 2)) :=
  ⟨by decide, (serialize_capacity_exceeded id [1, 2, 3] (Segment.mk 2 [9, 9]) (by decide)).1⟩

/-- C10.  For every stable interprocess map state and every key k not present
in the map, erase(k) succeeds without reporting any error and leaves the map's
committed contents (and its serialized image in the segment) equal to what
they were before the call. -/
theorem map_erase_absent_key (seg : Segment) (k : Nat) (m : AList Int) (rest : List Nat)
    (himg : seg.content = encRCMap m ++ rest)
    (hsorted : KeySorted m) (hlen : m.length < 2 ^ 64)
    (hkeys : ∀ p ∈ m, p.1 < 2 ^ 64) (hvals : ∀ p ∈ m, Int32Range p.2)
    (hfit : (encRCMap m).length ≤ seg.capacity)
    (habsent : alookup m k = none) :
    mapEraseOp seg k = (seg, none) ∧ segDeserializeRCMap seg = m := by
  have hdec : segDeserializeRCMap seg = m := by
    rw [segDeserializeRCMap, himg, decRCMap_encRCMap m rest hsorted hlen hkeys hvals]
  refine ⟨?_, hdec⟩
  rw [mapEraseOp, hdec, aerase_of_alookup_none m k habsent, serializeToSegment,
    if_neg (by omega)]
  have : seg.content.drop (encRCMap m).length = rest := by
    rw [himg, List.drop_left]
  rw [this, ← himg]

/-- Witness for C10: erasing the absent key 5 from a committed one-entry map
leaves the segment byte-for-byte unchanged and reports no error. -/
theorem map_erase_absent_key_witness :
    mapEraseOp (Segment.mk 64 (encRCMap [(3, 1)] ++ [7, 7])) 5
        = (Segment.mk 64 (encRCMap [(3, 1)] ++ [7, 7]), none) :=
  (map_erase_absent_key (Segment.mk 64 (encRCMap [(3, 1)] ++ [7, 7])) 5 [(3, 1)] [7, 7]
    rfl (by simp [KeySorted]) (by norm_num) (by norm_num)
    (by intro p hp; simp at hp; subst hp; exact ⟨by norm_num, by norm_num⟩)
    (by norm_num [encRCMap, encMap, encNat64, encInt32, length_encBytesLE])
    (by decide)).1

/-- C4.  For every value x of the supported serialization algebra
(fixed-layout primitives, strings, and ordered maps of such keys and values),
serializing x into a fresh byte buffer and then deserializing from the start of
that buffer yields a value equal to x, with the read cursor advanced exactly
past x's encoding; for a sequence of heterogeneous values encoded one after
another into the same buffer, decoding them in the same order recovers the
original sequence. -/
theorem serialization_round_trip (x : SVal) (xs : List SVal) (rest : List Nat)
    (hx : WFSVal x) (hxs : ∀ y ∈ xs, WFSVal y) :
    decSVal (shapeOf x) (encSVal x ++ rest) = some (x, rest) ∧
    decSValSeq (xs.map shapeOf) (encSValSeq xs ++ rest) = some (xs, rest) :=
  ⟨decSVal_encSVal x rest hx, decSValSeq_encSValSeq xs rest hxs⟩

/-- Witness for C4 at concrete values: a primitive, a string and a two-entry
map, also decoded as a heterogeneous sequence. -/
theorem serialization_round_trip_witness :
    WFSVal (SVal.vmap [(1, [104, 105]), (2, [33])]) ∧
    decSVal SShape.vmap (encSVal (SVal.vmap [(1, [104, 105]), (2, [33])]) ++ [7]) =
      some (SVal.vmap [(1, [104, 105]), (2, [33])], [7]) ∧
    decSValSeq [SShape.prim, SShape.str]
        (encSValSeq [SVal.prim 5, SVal.str [104]] ++ []) =
      some ([SVal.prim 5, SVal.str [104]], []) := by
  refine ⟨by decide, ?_, ?_⟩
  · exact (serialization_round_trip (SVal.vmap [(1, [104, 105]), (2, [33])]) [] [7]
      (by decide) (by decide)).1
  · exact (serialization_round_trip (SVal.prim 0) [SVal.prim 5, SVal.str [104]] []
      (by decide) (by decide)).2

/-- C8.  For every registered name, after singleton_control reset has run,
every get call for any name and type returns an empty handle (without
constructing anything) until set_operational is called; after set_operational,
a get for a previously registered name constructs and returns a fresh instance
rather than the old one. -/
theorem singleton_reset_and_reenable (st : SingState) (name : String)
    (tag i : Nat) (hreg : slookup st.instances name = some (tag, i))
    (hlt : i < st.counter) :
    (∀ (nm : String) (tg : Nat),
      singletonGet (singletonControlReset st) nm tg
        = (singletonControlReset st, none, none)) ∧
    singletonGet (setOperational (singletonControlReset st)) name tag
      = ({ instances := [(name, tag, st.counter)], shutdown := false,
           counter := st.counter + 1 }, some st.counter, none) ∧
    st.counter ≠ i := by
  refine ⟨?_, ?_, by omega⟩
  · intro nm tg
    rw [singletonGet, if_pos (show (singletonControlReset st).shutdown = true from rfl)]
  · rw [singletonGet]
    rw [if_neg (by simp [setOperational, singletonControlReset])]
    rfl

/-- Witness for C8: the name "A" is registered with instance id 0; after
reset every get is empty, and after set_operational the same name yields the
fresh id 1. -/
theorem singleton_reset_and_reenable_witness :
    singletonGet (singletonControlReset (SingState.mk [("A", 0, 0)] false 1)) "A" 0
      = (singletonControlReset (SingState.mk [("A", 0, 0)] false 1), none, none) ∧
    (singletonGet (setOperational (singletonControlReset
        (SingState.mk [("A", 0, 0)] false 1))) "A" 0).2.1 = some 1 := by
  have h := singleton_reset_and_reenable (SingState.mk [("A", 0, 0)] false 1) "A" 0 0
    (by decide) (by decide)
  exact ⟨h.1 "A" 0, by rw [h.2.1]⟩

/-- C6.  The claim states that with max_queued = k the sender blocks exactly
while the queue holds k messages and that a blocked sender is woken whenever
the queue size drops below k, in particular after a handler dequeues a message
from a full queue.  In the code the handler's dequeue notifies no condition
variable (only send_message notifies queue_cv, and the end of on_message
notifies queue_cv_empty), so at the failing input below the sender blocked
with max_queued = 1 stays blocked after the handler drains the full queue:
the queue size has dropped below k, the dequeue emitted no notification, and
the sender is still waiting — also after the handler finishes the message. -/
theorem send_message_not_woken_on_dequeue :
    (sendAttempt (MQState.mk [] 0 false) 1 10).1 = MQState.mk [10] 0 false ∧
    (sendAttempt (MQState.mk [10] 0 false) 1 11).1 = MQState.mk [10] 0 true ∧
    (sendAttempt (MQState.mk [10] 0 false) 1 11).2 = [] ∧
    (handlerDequeue (MQState.mk [10] 0 true)).1 = MQState.mk [] 1 true ∧
    (handlerDequeue (MQState.mk [10] 0 true)).2 = [] ∧
    (MQState.mk [] 1 true).queue.length < 1 ∧
    senderWake (MQState.mk [] 1 true) 1 11 (handlerDequeue (MQState.mk [10] 0 true)).2
      = MQState.mk [] 1 true ∧
    (handlerFinish (MQState.mk [] 1 true)).2 = [MMCV.queueCvEmpty] ∧
    senderWake (handlerFinish (MQState.mk [] 1 true)).1 1 11
        (handlerFinish (MQState.mk [] 1 true)).2
      = MQState.mk [] 0 true := by
  decide
